import Mathlib

/-!
Shallow embedding of the Shelflet object-persistence engine
(`src/shelflet.py`) and proofs about the behaviour its specification
claims.

Modelling conventions, used throughout:

* Python runtime values that the engine manipulates are embedded as the
  inductive `Value`.  Temporal values (`date` / `time` / `datetime`) are
  represented abstractly by an integer time-stamp `vtemp k t`; the
  ISO-8601 rendering `v.isoformat()` of such a value is represented by
  the distinct constructor `viso k t`.  This encoding bakes in exactly
  two true facts about CPython's implementation: `isoformat` is
  injective, and `fromisoformat` inverts it for values of the same
  temporal kind.  Cross-kind coercions (e.g. `datetime.fromisoformat`
  of the rendering of a plain `date`, or `isinstance(datetime, date)`
  through subclassing) are not exercised by any theorem below and are
  modelled as parse failures.
* Raised Python exceptions become `Except Err` results; the
  constructors of `Err` follow the specification's error taxonomy,
  plus constructors for the concrete `TypeError`/`AttributeError`/
  `KeyError` crashes the source can produce (`len(None)`,
  `.isoformat()` on a non-temporal value, a missing `"id"` key).
* A `shelve` store is an insertion-ordered association list from the
  record identifier to the flat snapshot dictionary; `putKV` has the
  update-in-place-or-append semantics of a Python mapping and
  iteration follows list order.
* The in-memory index cache is inactive (`_index_cache is None`)
  throughout: every claim below is about the direct storage path.
* Python's `bool` is an `int` subclass, so `isinstance(value, int)`
  accepts booleans; `Value.isIntLike` mirrors this.  The numeric
  equalities `True == 1` and `1 == 1.0` are not exercised by any
  theorem and value equality is structural.
-/

namespace Shelflet

/-- Temporal field kinds: `date`, `time` and `datetime`. -/
inductive TKind where
  | tdate
  | ttime
  | tdatetime
deriving DecidableEq, Repr

/-- Runtime values handled by the engine (scalar part; live model
references appear only in the concrete relational universes below). -/
inductive Value where
  | vnone
  | vint (n : Int)
  | vbool (b : Bool)
  | vstr (s : String)
  | vtemp (k : TKind) (t : Int)
  | viso (k : TKind) (t : Int)
deriving DecidableEq, Repr

/-- Python truthiness of an embedded value (`if value:`). -/
def Value.truthy : Value → Bool
  | .vnone => false
  | .vint n => n != 0
  | .vbool b => b
  | .vstr s => s ≠ ""
  | .vtemp _ _ => true
  | .viso _ _ => true

/-- Python `isinstance(value, int)`; booleans are `int` subclasses. -/
def Value.isIntLike : Value → Bool
  | .vint _ => true
  | .vbool _ => true
  | _ => false

/-- Python `isinstance(value, str)`; an ISO rendering is a string. -/
def Value.isStr : Value → Bool
  | .vstr _ => true
  | .viso _ _ => true
  | _ => false

/-- Python `isinstance(value, bool)`. -/
def Value.isBool : Value → Bool
  | .vbool _ => true
  | _ => false

/-- Error taxonomy.  The first five constructors are the
specification's names for the `ValueError`/`TypeError` exceptions the
source raises deliberately; the last three are accidental crashes the
source can also produce. -/
inductive Err where
  | missingRequiredField
  | typeMismatch
  | rangeViolation
  | uniqueConstraintViolation
  | deserializationError
  | noneLenError
  | attributeError
  | keyError
deriving DecidableEq, Repr

/-- Kind-specific part of a field declaration.  `AutoField` is handled
by the dedicated counter module below; `FloatField` and the relational
fields are not needed by the scalar-model claims. -/
inductive FieldKind where
  | integer
  | char (maxLength : Option Nat)
  | text
  | boolean
  | temporal (k : TKind) (minV maxV : Option Int)
deriving DecidableEq, Repr

/-- A field declaration (`Field.__init__`): kind plus the `required`,
`default` and `unique` options. -/
structure FieldSpec where
  kind : FieldKind
  required : Bool := false
  default : Value := .vnone
  unique : Bool := false
deriving DecidableEq, Repr

/-- Base-class validation (`Field.validate`): a required field rejects
`None` with the `MissingRequiredField` error. -/
def baseValidate (required : Bool) (v : Value) : Except Err Unit :=
  if required = true ∧ v = Value.vnone then .error .missingRequiredField else .ok ()

/-- Result of `K.fromisoformat(str(value))` for temporal kind `K`:
only the ISO rendering of a value of the same kind parses; `str()` of
any other embedded value is not a parseable ISO string for `K`. -/
def isoParse (k : TKind) : Value → Option Int
  | .viso k2 t => if k2 = k then some t else none
  | _ => none

/-- Validation of a `DateTimeField` / `DateField` / `TimeField`
(`validate` of those classes): base check, `None` passes through, a
native value of the kind is kept, anything else goes through
`fromisoformat(str(value))` with failure reported as the
specification's `DeserializationError`, then the `min_value` /
`max_value` bounds are enforced and the coerced value returned. -/
def temporalValidate (k : TKind) (minV maxV : Option Int) (required : Bool)
    (v : Value) : Except Err Value := do
  let _ ← baseValidate required v
  if v = Value.vnone then
    pure Value.vnone
  else do
    let t ← (match v with
      | .vtemp k2 t2 =>
          if k2 = k then Except.ok t2 else Except.error Err.deserializationError
      | w =>
          match isoParse k w with
          | some t2 => Except.ok t2
          | none => Except.error Err.deserializationError)
    let _ ← (match minV with
      | some lo => if t < lo then Except.error Err.rangeViolation else Except.ok ()
      | none => Except.ok ())
    let _ ← (match maxV with
      | some hi => if hi < t then Except.error Err.rangeViolation else Except.ok ()
      | none => Except.ok ())
    pure (Value.vtemp k t)

/-- Per-kind `validate(raw)`.  The returned value is what the Python
method returns: the scalar kinds fall off the end of the method and
return `None`; the temporal kinds return the coerced value.
`CharField.validate` evaluates `len(value)` whenever `max_length` is
truthy, which crashes on `None` (`noneLenError`); an ISO rendering
stored in a char field is a string of unknown length and is not
exercised by any theorem. -/
def fieldValidate (f : FieldSpec) (v : Value) : Except Err Value := do
  match f.kind with
  | .integer =>
      let _ ← baseValidate f.required v
      if v ≠ Value.vnone ∧ v.isIntLike = false then throw Err.typeMismatch
      pure Value.vnone
  | .text =>
      let _ ← baseValidate f.required v
      if v ≠ Value.vnone ∧ v.isStr = false then throw Err.typeMismatch
      pure Value.vnone
  | .boolean =>
      let _ ← baseValidate f.required v
      if v ≠ Value.vnone ∧ v.isBool = false then throw Err.typeMismatch
      pure Value.vnone
  | .char maxLength =>
      let _ ← baseValidate f.required v
      if v ≠ Value.vnone ∧ v.isStr = false then throw Err.typeMismatch
      let _ ← (match maxLength with
        | none => Except.ok ()
        | some m =>
            if m = 0 then Except.ok ()
            else
              match v with
              | .vstr s =>
                  if s.length > m then Except.error Err.rangeViolation else Except.ok ()
              | .viso _ _ => Except.ok ()
              | _ => Except.error Err.noneLenError)
      pure Value.vnone
  | .temporal k minV maxV => temporalValidate k minV maxV f.required v

/-- Schema of one model: the `_fields` registry collected by the
metaclass, in declaration order. -/
structure ModelDef where
  fields : List (String × FieldSpec)

/-- A live model instance: identifier plus one stored value per
declared field (`setattr` in `Model.__init__`). -/
structure Rec where
  id : String
  vals : List (String × Value)
deriving DecidableEq, Repr

/-- Python `getattr(obj, k, None)` over the stored field values. -/
def getattrD (r : Rec) (k : String) : Value := (r.vals.lookup k).getD .vnone

/-- Field-by-field body of `Model.__init__`: each declared field takes
the supplied value or the field default, is validated, and the RAW
value (not `validate`'s return) is stored — the validated result is
used only for `AutoField`, which this scalar layer excludes. -/
def initVals (kwargs : List (String × Value)) :
    List (String × FieldSpec) → Except Err (List (String × Value))
  | [] => .ok []
  | (k, f) :: rest => do
      let v := (kwargs.lookup k).getD f.default
      let _ ← fieldValidate f v
      let tail ← initVals kwargs rest
      pure ((k, v) :: tail)

/-- The constructor `Model.__init__`: the identifier is the supplied
`"id"` entry when it is a string, else the freshly generated UUID
`genId`; then every declared field is validated and stored. -/
def modelInit (m : ModelDef) (genId : String) (kwargs : List (String × Value)) :
    Except Err Rec := do
  let idStr := match kwargs.lookup "id" with
    | some (.vstr s) => s
    | _ => genId
  let vals ← initVals kwargs m.fields
  pure ⟨idStr, vals⟩

/-- Flat snapshot dictionary, as written to the store. -/
abbrev Snap := List (String × Value)

/-- Per-model key-value store, id to snapshot, in insertion order. -/
abbrev Store := List (String × Snap)

/-- Mapping update `db[k] = v`: replace in place, else append. -/
def putKV {β : Type} (st : List (String × β)) (k : String) (v : β) :
    List (String × β) :=
  match st with
  | [] => [(k, v)]
  | (k2, v2) :: rest => if k2 = k then (k, v) :: rest else (k2, v2) :: putKV rest k v

/-- Mapping removal `del db[k]` (a no-op when the key is absent, which
is how `Model.delete` guards the deletion). -/
def delKV {β : Type} (st : List (String × β)) (k : String) :
    List (String × β) :=
  st.filter (fun e => decide (e.1 ≠ k))

/-- One field of `Model.to_dict`: a truthy temporal value collapses to
its ISO rendering, a truthy non-temporal value in a temporal field has
no `isoformat` attribute and crashes, everything else is stored raw. -/
def toDictField (f : FieldSpec) (v : Value) : Except Err Value :=
  match f.kind with
  | .temporal _ _ _ =>
      if v.truthy then
        match v with
        | .vtemp k t => .ok (.viso k t)
        | _ => .error .attributeError
      else .ok v
  | _ => .ok v

/-- Field-by-field loop of `Model.to_dict`. -/
def toDictVals (r : Rec) : List (String × FieldSpec) → Except Err Snap
  | [] => .ok []
  | kf :: rest => do
      let w ← toDictField kf.2 (getattrD r kf.1)
      let tail ← toDictVals r rest
      pure ((kf.1, w) :: tail)

/-- The snapshot built by `Model.to_dict`: every declared field in
order, then the identifier under the reserved key `"id"`. -/
def to_dict (m : ModelDef) (r : Rec) : Except Err Snap := do
  let core ← toDictVals r m.fields
  pure (core ++ [("id", Value.vstr r.id)])

/-- One field of `Model._from_dict`: a string stored in a temporal
field goes through the bare `fromisoformat` (a non-parsing string
raises), everything else is passed to the constructor unchanged. -/
def fromDictField (f : FieldSpec) (v : Value) : Except Err Value :=
  match f.kind with
  | .temporal k _ _ =>
      match v with
      | .viso k2 t => if k2 = k then .ok (.vtemp k t) else .error .deserializationError
      | .vstr _ => .error .deserializationError
      | w => .ok w
  | _ => .ok v

/-- Field-by-field coercion loop of `Model._from_dict`. -/
def fromDictVals (snap : Snap) : List (String × FieldSpec) → Except Err Snap
  | [] => .ok []
  | kf :: rest => do
      let w ← fromDictField kf.2 ((snap.lookup kf.1).getD .vnone)
      let tail ← fromDictVals snap rest
      pure ((kf.1, w) :: tail)

/-- The reader `Model._from_dict`: coerce each stored field value,
require the reserved `"id"` key (`data["id"]` raises `KeyError` when
absent), then run the ordinary validating constructor. -/
def from_dict (m : ModelDef) (snap : Snap) : Except Err Rec := do
  let kwargs ← fromDictVals snap m.fields
  let idv ← (match snap.lookup "id" with
    | some w => Except.ok w
    | none => Except.error Err.keyError)
  modelInit m "" (kwargs ++ [("id", idv)])

/-- Full scan `Model.all()` without query options: reconstruct every
stored snapshot in iteration order. -/
def allRecs (m : ModelDef) : Store → Except Err (List Rec)
  | [] => .ok []
  | e :: rest => do
      let r ← from_dict m e.2
      let tail ← allRecs m rest
      pure (r :: tail)

/-- Python `==` between embedded scalar values (structural). -/
def pyEq (a b : Value) : Bool := decide (a = b)

/-- Single-condition `Model.where(k=v)` over scalar fields: filter the
full scan by equality on the named attribute.  The source's special
case comparing model instances by identifier lives in the relational
universes below. -/
def whereEq (m : ModelDef) (st : Store) (k : String) (v : Value) :
    Except Err (List Rec) := do
  let objs ← allRecs m st
  pure (objs.filter (fun o => pyEq (getattrD o k) v))

/-- The unique-constraint loop at the top of `Model.save`: for every
field marked `unique` whose current value is not `None`, scan all
persisted records for another identifier holding an equal value and
raise `UniqueConstraintViolation` on a match. -/
def uniqueScan (m : ModelDef) (st : Store) (r : Rec) :
    List (String × FieldSpec) → Except Err Unit
  | [] => Except.ok ()
  | (k, f) :: rest =>
      if f.unique = true ∧ getattrD r k ≠ Value.vnone then do
        let existing ← whereEq m st k (getattrD r k)
        if existing.any (fun o => o.id ≠ r.id) then
          Except.error Err.uniqueConstraintViolation
        else uniqueScan m st r rest
      else uniqueScan m st r rest

/-- The writer `Model.save` (index cache inactive): run the
unique-constraint scan, build the snapshot, write it under the
record's identifier.  An error leaves the store untouched — the
function returns no store at all. -/
def save (m : ModelDef) (st : Store) (r : Rec) : Except Err Store := do
  let _ ← uniqueScan m st r m.fields
  let d ← to_dict m r
  pure (putKV st r.id d)

/-! ### Query evaluation (`Model.all` with `order_by` / `limit` / `offset`)

`list.sort(key=attrgetter(key), reverse=...)` is a stable sort on the
named attribute.  Comparing non-integer attributes raises `TypeError`
in Python; the theorems below only sort integer-valued fields, and
`sortKeyInt` maps the never-exercised non-integer case to `0`. -/

/-- Sort key `attrgetter(key)` of a record, as an integer. -/
def sortKeyInt (key : String) (r : Rec) : Int :=
  match getattrD r key with
  | .vint n => n
  | _ => 0

/-- Ascending comparison used by `sort` without `reverse`. -/
def ascLe (key : String) (a b : Rec) : Prop :=
  sortKeyInt key a ≤ sortKeyInt key b

/-- Descending comparison: `reverse=True` orders keys non-increasingly
while keeping equal keys in encounter order, which is exactly a stable
sort under the flipped comparison. -/
def descLe (key : String) (a b : Rec) : Prop :=
  sortKeyInt key b ≤ sortKeyInt key a

instance (key : String) : DecidableRel (ascLe key) :=
  fun _ _ => Int.decLe _ _

instance (key : String) : DecidableRel (descLe key) :=
  fun _ _ => Int.decLe _ _

instance (key : String) : IsTotal Rec (ascLe key) :=
  ⟨fun _ _ => Int.le_total _ _⟩

instance (key : String) : IsTrans Rec (ascLe key) :=
  ⟨fun _ _ _ h1 h2 => le_trans h1 h2⟩

instance (key : String) : IsTotal Rec (descLe key) :=
  ⟨fun a b => (Int.le_total (sortKeyInt key a) (sortKeyInt key b)).symm⟩

instance (key : String) : IsTrans Rec (descLe key) :=
  ⟨fun _ _ _ h1 h2 => le_trans h2 h1⟩

/-- Python `order_by.startswith("-")`. -/
def startsWithDash (s : String) : Bool :=
  match s.data with
  | c :: _ => c == '-'
  | [] => false

/-- Python `order_by.lstrip("-")`: strip every leading dash. -/
def lstripDashes (s : String) : String :=
  ⟨s.data.dropWhile (· == '-')⟩

/-- The in-place sort of `Model.all`: a leading `-` selects the
descending comparison and `lstrip("-")` yields the field name. -/
def pySortBy (orderBy : String) (data : List Rec) : List Rec :=
  let key := lstripDashes orderBy
  if startsWithDash orderBy then
    List.insertionSort (descLe key) data
  else
    List.insertionSort (ascLe key) data

/-- Full `Model.all(order_by, limit, offset)` (index cache inactive):
scan, optionally sort, then `if offset: data = data[offset:]` and
`if limit: data = data[:limit]` — note both guards are Python
truthiness tests, so a zero offset or zero limit is skipped. -/
def all (m : ModelDef) (st : Store) (orderBy : Option String)
    (limit offset : Option Nat) : Except Err (List Rec) := do
  let data ← allRecs m st
  let data := match orderBy with
    | some ob => pySortBy ob data
    | none => data
  let data := match offset with
    | some o => if o ≠ 0 then data.drop o else data
    | none => data
  let data := match limit with
    | some l => if l ≠ 0 then data.take l else data
    | none => data
  pure data

/-! ### The Auto-Counter Service (`AutoField`)

The process-wide counter is the triple of the in-memory value
(`AutoField._counter`, initially `0`), the one-shot initialization
flag, and the counter file's content (`none` models an absent or
unparsable file, exactly what the `except` branch maps to `0`).
`_save_counter` swallows write failures in the source
(`try: write / except: pass`), so every operation that attempts a
write takes an explicit outcome `writeOk`: a successful write persists
the current value, a failed one is swallowed and leaves the file — and
hence what a later initialization will reload — as it was.  The
recovery scan's per-model maxima are passed in as `storeMaxes` (the
source computes `max(getattr(obj, field_name, 0) or 0 for obj in
objects)` per model/field pair and ignores models whose scan
fails). -/

/-- State of the process-wide counter. -/
structure CounterSt where
  counter : Int
  initDone : Bool
  file : Option Int
deriving DecidableEq, Repr

/-- Fresh process start over a pre-existing counter file. -/
def counterStart (file0 : Option Int) : CounterSt :=
  { counter := 0, initDone := false, file := file0 }

/-- `AutoField._initialize_counter`: once per process, load the file
(defaulting to `0`), then raise the value to each already-persisted
maximum. -/
def initCtr (storeMaxes : List Int) (s : CounterSt) : CounterSt :=
  if s.initDone then s
  else { counter := storeMaxes.foldl max (s.file.getD 0), initDone := true,
         file := s.file }

/-- `AutoField._save_counter`: attempt to persist the current value to
the file.  The source swallows any write failure, so `writeOk = false`
leaves the counter file untouched (stale or absent) while the
in-memory state is unaffected either way. -/
def saveCounter (writeOk : Bool) (s : CounterSt) : CounterSt :=
  if writeOk then { s with file := some s.counter } else s

/-- `AutoField.get_default`: initialize once, increment, attempt to
persist, and return the fresh value. -/
def get_default (storeMaxes : List Int) (writeOk : Bool) (s : CounterSt) :
    Int × CounterSt :=
  let s1 := initCtr storeMaxes s
  let s2 := { s1 with counter := s1.counter + 1 }
  (s2.counter, saveCounter writeOk s2)

/-- `AutoField.validate`: `None` allocates the next value; a supplied
`int` above the current counter advances the watermark to exactly that
value (a file write is attempted), below or at it leaves the counter
alone; a Python `bool` is an `int` and participates with its numeric
value; any other type is rejected with `TypeMismatch`.  The returned
value is what the method returns and `Model.__init__` stores. -/
def autoValidate (storeMaxes : List Int) (writeOk : Bool) (s : CounterSt)
    (v : Value) : Except Err (Value × CounterSt) :=
  match v with
  | .vnone =>
      let p := get_default storeMaxes writeOk s
      .ok (.vint p.1, p.2)
  | .vint n =>
      if s.counter < n then
        .ok (.vint n, saveCounter writeOk { s with counter := n })
      else .ok (.vint n, s)
  | .vbool b =>
      let n : Int := if b then 1 else 0
      if s.counter < n then
        .ok (.vbool b, saveCounter writeOk { s with counter := n })
      else .ok (.vbool b, s)
  | _ => .error .typeMismatch

/-- The operations that touch the counter, for stating trajectory
properties: explicit initialization, an allocation (`get_default`),
and the watermark branch of `validate` with a supplied integer.  The
operations that attempt a counter-file write carry the write's
outcome. -/
inductive CtrOp where
  | initOp (storeMaxes : List Int)
  | allocOp (storeMaxes : List Int) (writeOk : Bool)
  | watermarkOp (n : Int) (writeOk : Bool)
deriving Repr

/-- Effect of one counter operation on the state. -/
def runOp (s : CounterSt) : CtrOp → CounterSt
  | .initOp ms => initCtr ms s
  | .allocOp ms ok => (get_default ms ok s).2
  | .watermarkOp n ok =>
      if s.counter < n then saveCounter ok { s with counter := n } else s

/-- Effect of a sequence of counter operations. -/
def runOps (s : CounterSt) (ops : List CtrOp) : CounterSt :=
  ops.foldl runOp s

/-! ### Round-trip universe

A concrete two-model instantiation for the save/fetch round-trip: a
referenced model `B` (one plain `CharField`) and a referencing model
`A` with an `IntegerField`, a `ForeignKey(B)` (defaults: not required,
`null=False`, no cascade), a `ManyToManyField(B)` and a
`DateTimeField`.  Live references are embedded structurally: the
ForeignKey attribute holds an optional `BRec`, the ManyToMany
attribute a list of `BRec`. -/

namespace RT

/-- Live record of the referenced model `B`. -/
structure BRec where
  id : String
  bname : Value
deriving DecidableEq, Repr

/-- Stored snapshot of a `B` record. -/
structure BSnap where
  id : String
  bname : Value
deriving DecidableEq, Repr

/-- Store of model `B`. -/
abbrev StoreB := List (String × BSnap)

/-- `B._from_dict` followed by `B.__init__`: the char field is
validated (non-strings are rejected) and stored raw. -/
def from_dictB (s : BSnap) : Except Err BRec := do
  let _ ← fieldValidate { kind := .char none } s.bname
  pure ⟨s.id, s.bname⟩

/-- `B.get_by_id` (no cache): single-key lookup, `None` when absent,
else reconstruction. -/
def get_by_idB (st : StoreB) (i : String) : Except Err (Option BRec) :=
  match st.lookup i with
  | none => .ok none
  | some s => do pure (some (← from_dictB s))

/-- `B.save`: model `B` has no unique fields, so the snapshot is
written directly. -/
def saveB (st : StoreB) (r : BRec) : StoreB :=
  putKV st r.id ⟨r.id, r.bname⟩

/-- Live record of the referencing model `A`. -/
structure ARec where
  id : String
  n : Value
  b : Option BRec
  ms : List BRec
  ts : Value
deriving DecidableEq, Repr

/-- Stored snapshot of an `A` record: relational fields collapse to
identifiers, the temporal field to its serialized form. -/
structure ASnap where
  id : String
  n : Value
  b : Option String
  ms : List String
  ts : Value
deriving DecidableEq, Repr

/-- Store of model `A`. -/
abbrev StoreA := List (String × ASnap)

/-- Element loop of `ManyToManyField.validate`: every element must be
a `B` instance; an unresolved (`None`) element raises `TypeMismatch`.
On success the raw list itself is what `__init__` stores. -/
def checkMembers : List (Option BRec) → Except Err (List BRec)
  | [] => .ok []
  | some br :: rest => do
      let tail ← checkMembers rest
      pure (br :: tail)
  | none :: _ => .error .typeMismatch

/-- `A.__init__`: validate each field, store the raw values.  The
ManyToMany argument is the list `_from_dict` builds, whose elements
may be unresolved (`None`); `ManyToManyField.validate` rejects any
such element as not being a `B` instance.  The temporal coercion
returned by `validate` is discarded (only `AutoField` uses it). -/
def initA (idStr : String) (n : Value) (b : Option BRec)
    (ms : List (Option BRec)) (ts : Value) : Except Err ARec := do
  let _ ← fieldValidate { kind := .integer } n
  let ms2 ← checkMembers ms
  let _ ← temporalValidate .tdatetime none none false ts
  pure ⟨idStr, n, b, ms2, ts⟩

/-- `A.to_dict`: the ForeignKey collapses to `val.id if val else
None`, the ManyToMany to the list of member identifiers, the raw
scalar is copied, and a truthy temporal value is rendered with
`isoformat` (crashing when the attribute holds a non-temporal
value). -/
def to_dictA (r : ARec) : Except Err ASnap := do
  let tsd ← toDictField { kind := .temporal .tdatetime none none } r.ts
  pure ⟨r.id, r.n, r.b.map BRec.id, r.ms.map BRec.id, tsd⟩

/-- ManyToMany resolution loop of `A._from_dict`: each stored
identifier goes through `B.get_by_id`, keeping `None` for danglers. -/
def resolveIds (stB : StoreB) : List String → Except Err (List (Option BRec))
  | [] => .ok []
  | i :: rest => do
      let ob ← get_by_idB stB i
      let tail ← resolveIds stB rest
      pure (ob :: tail)

/-- `A._from_dict`: resolve the ForeignKey identifier through
`B.get_by_id` (a falsy — empty — identifier resolves to `None`),
resolve every ManyToMany identifier, push a stored string through
`fromisoformat`, then construct. -/
def from_dictA (stB : StoreB) (s : ASnap) : Except Err ARec := do
  let b ← (match s.b with
    | some i => if i = "" then Except.ok none else get_by_idB stB i
    | none => Except.ok none)
  let ms ← resolveIds stB s.ms
  let ts2 ← fromDictField { kind := .temporal .tdatetime none none } s.ts
  initA s.id s.n b ms ts2

/-- `A.save`: model `A` has no unique fields; build the snapshot and
write it under the record's identifier. -/
def saveA (st : StoreA) (r : ARec) : Except Err StoreA := do
  let d ← to_dictA r
  pure (putKV st r.id d)

/-- `A.get_by_id` (no cache). -/
def get_by_idA (stA : StoreA) (stB : StoreB) (i : String) :
    Except Err (Option ARec) :=
  match stA.lookup i with
  | none => .ok none
  | some s => do pure (some (← from_dictA stB s))

/-- Well-typedness of an `IntegerField` attribute: the values
`IntegerField.validate` accepts, booleans aside. -/
def intOk (v : Value) : Bool :=
  match v with
  | .vnone => true
  | .vint _ => true
  | _ => false

/-- Well-typedness of a `DateTimeField` attribute for the round trip:
null or a native datetime value. -/
def tsOk (v : Value) : Bool :=
  match v with
  | .vnone => true
  | .vtemp .tdatetime _ => true
  | _ => false

/-- Whether a stored `B` identifier resolves cleanly: the snapshot is
present under the identifier, carries the same identifier, and its
char field reconstructs (it is a string or null). -/
def resolvesB (stB : StoreB) (i : String) : Bool :=
  match stB.lookup i with
  | some bs => decide (bs.id = i) &&
      (match bs.bname with
        | .vnone => true
        | .vstr _ => true
        | .viso _ _ => true
        | _ => false)
  | none => false

/-- The round-trip under study: save the record, then fetch it back by
its identifier with no intervening operation. -/
def saveFetch (stA : StoreA) (stB : StoreB) (r : ARec) :
    Except Err (Option ARec) := do
  let st2 ← saveA stA r
  get_by_idA st2 stB r.id

end RT

/-! ### Cascade-delete universe

A concrete four-model instantiation of `Model.delete`: a parent `P`;
a child `C` with `ForeignKey(P, on_delete="cascade")`; a grandchild
`G` with `ForeignKey(C, on_delete="cascade")` (exhibiting the
recursion); and an owner `O` with `ManyToManyField(P)`.  The source's
single recursive `delete` scans every model class for fields
referencing the target's class; instantiated at this fixed schema the
scan unrolls into the three functions below (the recursion is
stratified because the relationship graph here is acyclic, which the
source assumes). -/

namespace CD

/-- Stored snapshot of a parent record (no declared scalar fields). -/
structure PSnap where
  id : String
deriving DecidableEq, Repr

/-- Live parent record. -/
structure PRec where
  id : String
deriving DecidableEq, Repr

/-- Stored snapshot of a child: the ForeignKey collapses to the parent
identifier (or `None`). -/
structure CSnap where
  id : String
  p : Option String
deriving DecidableEq, Repr

/-- Live child record with its resolved parent reference. -/
structure CRec where
  id : String
  p : Option PRec
deriving DecidableEq, Repr

/-- Stored snapshot of a grandchild. -/
structure GSnap where
  id : String
  c : Option String
deriving DecidableEq, Repr

/-- Live grandchild record with its resolved child reference. -/
structure GRec where
  id : String
  c : Option CRec
deriving DecidableEq, Repr

/-- Stored snapshot of an owner: the ManyToMany list collapses to
member identifiers. -/
structure OSnap where
  id : String
  members : List String
deriving DecidableEq, Repr

/-- Live owner record with its resolved member list. -/
structure ORec where
  id : String
  members : List PRec
deriving DecidableEq, Repr

/-- The four per-model stores. -/
structure World where
  sp : List (String × PSnap)
  sc : List (String × CSnap)
  sg : List (String × GSnap)
  so : List (String × OSnap)
deriving DecidableEq, Repr

/-- `P.get_by_id`: `P` has no fields to validate, so reconstruction is
total. -/
def get_by_idP (sp : List (String × PSnap)) (i : String) : Option PRec :=
  (sp.lookup i).map (fun s => ⟨s.id⟩)

/-- `C._from_dict`: resolve the parent identifier (falsy identifiers
and failed lookups both give `None`; `ForeignKey.validate` accepts
`None` since the field is not required). -/
def from_dictC (sp : List (String × PSnap)) (s : CSnap) : CRec :=
  ⟨s.id, match s.p with
    | some i => if i = "" then none else get_by_idP sp i
    | none => none⟩

/-- `C.all()`. -/
def allC (sp : List (String × PSnap)) (sc : List (String × CSnap)) :
    List CRec :=
  sc.map (fun e => from_dictC sp e.2)

/-- `C.get_by_id`. -/
def get_by_idC (sp : List (String × PSnap)) (sc : List (String × CSnap))
    (i : String) : Option CRec :=
  (sc.lookup i).map (from_dictC sp)

/-- `G._from_dict`. -/
def from_dictG (sp : List (String × PSnap)) (sc : List (String × CSnap))
    (s : GSnap) : GRec :=
  ⟨s.id, match s.c with
    | some i => if i = "" then none else get_by_idC sp sc i
    | none => none⟩

/-- `G.all()`. -/
def allG (sp : List (String × PSnap)) (sc : List (String × CSnap))
    (sg : List (String × GSnap)) : List GRec :=
  sg.map (fun e => from_dictG sp sc e.2)

/-- Member resolution of `O._from_dict`: every ManyToMany identifier
is resolved through `P.get_by_id`; an unresolved member is `None` in
the built list, which `ManyToManyField.validate` then rejects at
construction. -/
def resolveMembers (sp : List (String × PSnap)) :
    List String → Except Err (List PRec)
  | [] => .ok []
  | i :: rest =>
      match get_by_idP sp i with
      | some pr => do
          let tail ← resolveMembers sp rest
          pure (pr :: tail)
      | none => .error .typeMismatch

/-- `O._from_dict`. -/
def from_dictO (sp : List (String × PSnap)) (s : OSnap) :
    Except Err ORec := do
  let ms ← resolveMembers sp s.members
  pure ⟨s.id, ms⟩

/-- `O.all()`. -/
def allO (sp : List (String × PSnap)) :
    List (String × OSnap) → Except Err (List ORec)
  | [] => .ok []
  | e :: rest => do
      let r ← from_dictO sp e.2
      let tail ← allO sp rest
      pure (r :: tail)

/-- `C.where(p=x)`: equality on a model-valued attribute compares the
resolved reference's identifier; an unset reference never matches. -/
def whereCp (sp : List (String × PSnap)) (sc : List (String × CSnap))
    (x : PRec) : List CRec :=
  (allC sp sc).filter (fun c => match c.p with
    | some pr => decide (pr.id = x.id)
    | none => false)

/-- `G.where(c=x)`. -/
def whereGc (sp : List (String × PSnap)) (sc : List (String × CSnap))
    (sg : List (String × GSnap)) (x : CRec) : List GRec :=
  (allG sp sc sg).filter (fun g => match g.c with
    | some cr => decide (cr.id = x.id)
    | none => false)

/-- `Model.delete` instantiated at `G`: no model declares a field
referencing `G`, so only the record's own entry is removed (guarded
by `if self.id in db`). -/
def deleteG (w : World) (g : GRec) : World :=
  { w with sg := delKV w.sg g.id }

/-- `Model.delete` at `C`: `G.c` is a cascade ForeignKey to `C`, so
the referencing grandchildren — listed up front, as the Python loop
materializes `where` before iterating — are deleted first, then the
record's own entry. -/
def deleteC (w : World) (c : CRec) : World :=
  let gs := whereGc w.sp w.sc w.sg c
  let w1 := gs.foldl deleteG w
  { w1 with sc := delKV w1.sc c.id }

/-- `O.save` for an owner whose member list was rewritten: `O` has no
unique fields, so the new snapshot is written directly. -/
def saveO (so : List (String × OSnap)) (r : ORec) :
    List (String × OSnap) :=
  putKV so r.id ⟨r.id, r.members.map PRec.id⟩

/-- One owner's step of the ManyToMany cleanup in `Model.delete`: drop
the target from the member list (`[o for o in old if o.id != self.id]`)
and re-save the owner exactly when the list shrank. -/
def m2mStep (x : PRec) (acc : World) (o : ORec) : World :=
  let old := o.members
  let nw := old.filter (fun pr => decide (pr.id ≠ x.id))
  if old.length ≠ nw.length then { acc with so := saveO acc.so ⟨o.id, nw⟩ }
  else acc

/-- `Model.delete` at `P`: cascade over the children referencing the
target through `C.p`; then, for every owner, drop the target from the
member list and re-save the owner when the list shrank; finally remove
the target's own entry.  `O.all()` can fail (unresolved members), in
which case the exception propagates after the cascade's side effects,
as in the source. -/
def deleteP (w : World) (x : PRec) : Except Err World := do
  let cs := whereCp w.sp w.sc x
  let w1 := cs.foldl deleteC w
  let os ← allO w1.sp w1.so
  let w2 := os.foldl (m2mStep x) w1
  pure { w2 with sp := delKV w2.sp x.id }

end CD

/-! ### Specification-side definitions and concrete scenarios

`specSlice` renders the specification's words for the query slice —
"sliced by offset (drop leading elements) then limit (cap remaining
count)" — unconditionally, to be compared with the code's truthiness-
guarded slicing.  The remaining definitions are the concrete schemas,
records and stores at which counterexamples and witnesses are
evaluated. -/

/-- Specification reading of the `limit` cap: always cap when a limit
is given. -/
def specTake (limit : Option Nat) (l : List Rec) : List Rec :=
  match limit with
  | some n => l.take n
  | none => l

/-- Specification reading of the full slice: drop `offset` first, then
cap at `limit`. -/
def specSlice (limit offset : Option Nat) (l : List Rec) : List Rec :=
  specTake limit (l.drop (offset.getD 0))

/-- Model with a single unique `CharField` (uniqueness scenarios). -/
def MU : ModelDef := ⟨[("sku", { kind := .char none, unique := true })]⟩

/-- Store of `MU` holding one record `"a"` whose unique field is null. -/
def stUnull : Store := [("a", [("sku", Value.vnone), ("id", Value.vstr "a")])]

/-- Record `"b"` of `MU` whose unique field is null. -/
def recBnull : Rec := ⟨"b", [("sku", Value.vnone)]⟩

/-- Store of `MU` holding one record `"a"` with unique value `"X"`. -/
def stUdup : Store := [("a", [("sku", Value.vstr "X"), ("id", Value.vstr "a")])]

/-- Record `"b"` of `MU` duplicating the unique value `"X"`. -/
def recBdup : Rec := ⟨"b", [("sku", Value.vstr "X")]⟩

/-- Record `"a"` of `MU` as reconstructed from `stUdup`. -/
def recAdup : Rec := ⟨"a", [("sku", Value.vstr "X")]⟩

/-- Model with a single required `CharField` (required-field
scenarios). -/
def MR : ModelDef := ⟨[("name", { kind := .char none, required := true })]⟩

/-- Record of `MR` holding null in its required field — the state a
live instance reaches after `obj.name = None`. -/
def recRnull : Rec := ⟨"a", [("name", Value.vnone)]⟩

/-- Model with a single `DateTimeField` (temporal construction
scenarios). -/
def MT : ModelDef := ⟨[("ts", { kind := .temporal .tdatetime none none })]⟩

/-- Model with a single `IntegerField` `"price"` (query scenarios). -/
def MQ : ModelDef := ⟨[("price", { kind := .integer })]⟩

/-- One-record store of `MQ`. -/
def stQ1 : Store := [("r0", [("price", Value.vint 5), ("id", Value.vstr "r0")])]

/-- The record persisted in `stQ1`. -/
def recQ0 : Rec := ⟨"r0", [("price", Value.vint 5)]⟩

/-- Three-record store of `MQ`, prices 5, 2, 9 in insertion order. -/
def stQ3 : Store :=
  [("r0", [("price", Value.vint 5), ("id", Value.vstr "r0")]),
   ("r1", [("price", Value.vint 2), ("id", Value.vstr "r1")]),
   ("r2", [("price", Value.vint 9), ("id", Value.vstr "r2")])]

/-- Referenced record `"b1"` persisted in `rtStB` (round-trip
scenarios). -/
def rtB1 : RT.BRec := ⟨"b1", Value.vstr "nm"⟩

/-- Store of model `B` holding `rtB1`. -/
def rtStB : RT.StoreB := [("b1", ⟨"b1", Value.vstr "nm"⟩)]

/-- An `A` record whose references all resolve in `rtStB`. -/
def rtGood : RT.ARec :=
  ⟨"a1", Value.vint 1, some rtB1, [rtB1], Value.vtemp TKind.tdatetime 7⟩

/-- An `A` record holding a live reference to a `B` record that is not
persisted anywhere (a dangling reference, which the engine accepts). -/
def rtDangling : RT.ARec :=
  ⟨"a1", Value.vint 1, some ⟨"b1", Value.vstr "x"⟩, [], Value.vnone⟩

/-- Parent record `"p1"` with one cascading child `"c1"`, one
grandchild `"g1"` of that child, an unrelated child `"c2"` of parent
`"p2"`, and an owner `"o1"` listing both parents (cascade-delete
scenario). -/
def cdWorld : CD.World :=
  { sp := [("p1", ⟨"p1"⟩), ("p2", ⟨"p2"⟩)],
    sc := [("c1", ⟨"c1", some "p1"⟩), ("c2", ⟨"c2", some "p2"⟩)],
    sg := [("g1", ⟨"g1", some "c1"⟩)],
    so := [("o1", ⟨"o1", ["p1", "p2"]⟩)] }

/-! ## Theorems -/

/-! ### Auto-counter helper lemmas -/

theorem initCtr_done (ms : List Int) (s : CounterSt) :
    (initCtr ms s).initDone = true := by
  unfold initCtr
  split
  · assumption
  · rfl

theorem saveCounter_counter (ok : Bool) (s : CounterSt) :
    (saveCounter ok s).counter = s.counter := by
  cases ok <;> rfl

theorem saveCounter_done (ok : Bool) (s : CounterSt) :
    (saveCounter ok s).initDone = s.initDone := by
  cases ok <;> rfl

theorem get_default_state (ms : List Int) (ok : Bool) (s : CounterSt) :
    (get_default ms ok s).2.counter = (get_default ms ok s).1
    ∧ (get_default ms ok s).1 = (initCtr ms s).counter + 1
    ∧ (get_default ms ok s).2.initDone = true := by
  refine ⟨?_, rfl, ?_⟩
  · exact saveCounter_counter ok _
  · rw [show (get_default ms ok s).2
        = saveCounter ok { initCtr ms s with counter := (initCtr ms s).counter + 1 }
      from rfl, saveCounter_done]
    exact initCtr_done ms s

theorem runOp_done (s : CounterSt) (op : CtrOp) (h : s.initDone = true) :
    (runOp s op).initDone = true := by
  cases op with
  | initOp ms => exact initCtr_done ms s
  | allocOp ms ok => exact (get_default_state ms ok s).2.2
  | watermarkOp n ok =>
      show (if s.counter < n then saveCounter ok { s with counter := n }
        else s).initDone = true
      split
      · rw [saveCounter_done]
        exact h
      · exact h

theorem runOps_done (s : CounterSt) (ops : List CtrOp) (h : s.initDone = true) :
    (runOps s ops).initDone = true := by
  induction ops generalizing s with
  | nil => exact h
  | cons op rest ih => exact ih (runOp s op) (runOp_done s op h)

theorem watermark_mono (s : CounterSt) (n : Int) (ok : Bool) :
    s.counter ≤ (runOp s (CtrOp.watermarkOp n ok)).counter := by
  show s.counter ≤
    (if s.counter < n then saveCounter ok { s with counter := n } else s).counter
  split
  · rw [saveCounter_counter]
    show s.counter ≤ n
    omega
  · exact le_refl _

theorem runOp_mono_done (s : CounterSt) (op : CtrOp) (h : s.initDone = true) :
    s.counter ≤ (runOp s op).counter := by
  cases op with
  | initOp ms =>
      show s.counter ≤ (initCtr ms s).counter
      unfold initCtr
      rw [if_pos h]
  | allocOp ms ok =>
      have h1 : (runOp s (CtrOp.allocOp ms ok)).counter
          = (initCtr ms s).counter + 1 := by
        show (get_default ms ok s).2.counter = _
        rw [(get_default_state ms ok s).1, (get_default_state ms ok s).2.1]
      have h2 : initCtr ms s = s := by
        unfold initCtr
        rw [if_pos h]
      rw [h1, h2]
      omega
  | watermarkOp n ok => exact watermark_mono s n ok

theorem runOps_mono_done (s : CounterSt) (ops : List CtrOp)
    (h : s.initDone = true) : s.counter ≤ (runOps s ops).counter := by
  induction ops generalizing s with
  | nil => exact le_refl _
  | cons op rest ih =>
      exact le_trans (runOp_mono_done s op h)
        (ih (runOp s op) (runOp_done s op h))

/-! ### Monad plumbing for `Except Err` -/

theorem ebind_ok {α β : Type} (a : α) (f : α → Except Err β) :
    (Except.ok a >>= f) = f a := rfl

theorem ebind_err {α β : Type} (e : Err) (f : α → Except Err β) :
    ((Except.error e : Except Err α) >>= f) = Except.error e := rfl

/-! ### C7 — counter monotonicity -/

/-- C7, counterexample: the claim "the counter value never decreases
across any sequence of counter operations (initialization, allocation,
watermark advance)" is false.  `_save_counter` swallows write failures,
so a watermark advance that fires before `_initialize_counter` has run
(AutoField.validate guards only `get_default` with initialization) can
leave the in-memory counter at `5` while the counter file stays absent;
the next operation's embedded initialization then reloads from the
absent file and empty stores, dropping the counter back to `0` — a
strict decrease. -/
theorem counter_never_decreases_cex :
    (runOps (counterStart none) [CtrOp.watermarkOp 5 false]).counter = 5
    ∧ (runOps (counterStart none)
        [CtrOp.watermarkOp 5 false, CtrOp.initOp []]).counter = 0
    ∧ ((0:Int) < 5) := by decide

/-- C7, amended: once `_initialize_counter` has run, the counter value
never decreases across any further sequence of counter operations
(initialization, allocation, watermark advance), regardless of whether
the swallowed counter-file writes succeed or fail; a single watermark
advance never decreases the counter even before initialization; and any
two successive allocations within one process return strictly
increasing values, with arbitrary counter operations in between.  The
only decreasing step is the initial `_initialize_counter` load itself,
which can discard in-memory watermark advances whose file write failed
(or load a pre-existing file value below the current counter). -/
theorem counter_never_decreases_amended :
    (∀ (s : CounterSt) (ops : List CtrOp), s.initDone = true →
       s.counter ≤ (runOps s ops).counter)
    ∧ (∀ (s : CounterSt) (n : Int) (ok : Bool),
       s.counter ≤ (runOp s (CtrOp.watermarkOp n ok)).counter)
    ∧ (∀ (s : CounterSt) (ms1 ms2 : List Int) (ok1 ok2 : Bool)
        (mid : List CtrOp),
       (get_default ms1 ok1 s).1 <
         (get_default ms2 ok2 (runOps (get_default ms1 ok1 s).2 mid)).1) := by
  refine ⟨?_, ?_, ?_⟩
  · intro s ops h
    exact runOps_mono_done s ops h
  · intro s n ok
    exact watermark_mono s n ok
  · intro s ms1 ms2 ok1 ok2 mid
    have hs1 := get_default_state ms1 ok1 s
    set s1 := (get_default ms1 ok1 s).2 with hs1def
    have hdone : s1.initDone = true := hs1.2.2
    have hmid : s1.counter ≤ (runOps s1 mid).counter :=
      runOps_mono_done s1 mid hdone
    have hmiddone : (runOps s1 mid).initDone = true := runOps_done s1 mid hdone
    have hs2 := get_default_state ms2 ok2 (runOps s1 mid)
    have hinit : initCtr ms2 (runOps s1 mid) = runOps s1 mid := by
      unfold initCtr
      simp [hmiddone]
    have : (get_default ms2 ok2 (runOps s1 mid)).1
        = (runOps s1 mid).counter + 1 := by
      rw [hs2.2.1, hinit]
    rw [this]
    have hret : (get_default ms1 ok1 s).1 = s1.counter := hs1.1.symm
    omega

/-- C7, witness for the amended theorem: a post-initialization state run
through a failed-write watermark advance and an allocation; a
pre-initialization failed-write watermark advance on its own; and a pair
of back-to-back allocations (the first write succeeding, the second
failing) separated by a redundant initialization and another
failed-write watermark advance. -/
theorem counter_never_decreases_amended_witness :
    (({ counter := 4, initDone := true, file := some 4 } : CounterSt).counter ≤
        (runOps { counter := 4, initDone := true, file := some 4 }
          [CtrOp.watermarkOp 9 false, CtrOp.allocOp [] true]).counter)
    ∧ ((counterStart none).counter ≤
        (runOp (counterStart none) (CtrOp.watermarkOp 5 false)).counter)
    ∧ ((get_default [] true (counterStart none)).1 <
        (get_default [] false (runOps (get_default [] true (counterStart none)).2
          [CtrOp.initOp [], CtrOp.watermarkOp 2 false])).1) := by
  refine ⟨?_, ?_, ?_⟩
  · exact counter_never_decreases_amended.1
      { counter := 4, initDone := true, file := some 4 }
      [CtrOp.watermarkOp 9 false, CtrOp.allocOp [] true] rfl
  · exact counter_never_decreases_amended.2.1 (counterStart none) 5 false
  · exact counter_never_decreases_amended.2.2 (counterStart none) [] [] true false
      [CtrOp.initOp [], CtrOp.watermarkOp 2 false]

/-! ### C8 — `AutoField.validate` -/

/-- C8: `AutoField.validate` with a null raw value returns the next
counter allocation (the initialized counter plus one, with the
matching state update); with a supplied integer strictly above the
current counter it advances the counter to exactly that value (a file
write is attempted, any failure swallowed) before accepting the value;
with a supplied integer at or below the counter it leaves the counter
state untouched (never moving it backward); and with a non-integer raw
value it fails with `TypeMismatch`.  Every part holds whether the
swallowed counter-file write succeeds or fails. -/
theorem autoField_validate_spec (ms : List Int) (ok : Bool) (s : CounterSt) :
    (autoValidate ms ok s Value.vnone =
      Except.ok (Value.vint ((initCtr ms s).counter + 1),
        (get_default ms ok s).2))
    ∧ (∀ n : Int, s.counter < n →
        autoValidate ms ok s (Value.vint n) =
          Except.ok (Value.vint n, saveCounter ok { s with counter := n })
        ∧ (saveCounter ok { s with counter := n }).counter = n)
    ∧ (∀ n : Int, n ≤ s.counter →
        autoValidate ms ok s (Value.vint n) = Except.ok (Value.vint n, s))
    ∧ (∀ v : Value, v ≠ Value.vnone → v.isIntLike = false →
        autoValidate ms ok s v = Except.error Err.typeMismatch) := by
  refine ⟨rfl, ?_, ?_, ?_⟩
  · intro n h
    constructor
    · simp [autoValidate, h]
    · exact saveCounter_counter ok _
  · intro n h
    simp [autoValidate, not_lt.mpr h]
  · intro v hv hint
    cases v <;> simp_all [autoValidate, Value.isIntLike]

/-- C8, witness: the allocation, watermark-advance (under both a
successful and a failed file write), no-op and type-mismatch branches,
each at a concrete state. -/
theorem autoField_validate_spec_witness :
    (autoValidate [] true (counterStart none) Value.vnone =
      Except.ok (Value.vint 1, { counter := 1, initDone := true, file := some 1 }))
    ∧ (autoValidate [] true (counterStart none) (Value.vint 7) =
      Except.ok (Value.vint 7, { counter := 7, initDone := false, file := some 7 }))
    ∧ (autoValidate [] false (counterStart none) (Value.vint 7) =
      Except.ok (Value.vint 7, { counter := 7, initDone := false, file := none }))
    ∧ (autoValidate [] true { counter := 9, initDone := true, file := some 9 }
        (Value.vint 4) =
      Except.ok (Value.vint 4, { counter := 9, initDone := true, file := some 9 }))
    ∧ (autoValidate [] true (counterStart none) (Value.vstr "x") =
      Except.error Err.typeMismatch) := by
  have h1 := autoField_validate_spec [] true (counterStart none)
  have h1f := autoField_validate_spec [] false (counterStart none)
  have h2 := autoField_validate_spec [] true
    { counter := 9, initDone := true, file := some 9 }
  exact ⟨h1.1, (h1.2.1 7 (by decide)).1, (h1f.2.1 7 (by decide)).1,
    h2.2.2.1 4 (by decide),
    h1.2.2.2 (Value.vstr "x") (by decide) (by decide)⟩

/-! ### C9 — `CharField.validate(None)` with a max-length bound -/

/-- C9: a `CharField` constructed with a (truthy, i.e. positive)
max-length bound and not marked required rejects a null value instead
of accepting the absent value: `if self.max_length and len(value) >
self.max_length` evaluates `len(None)`, which raises, so an optional
bounded text field cannot be left empty.  (A zero bound is falsy in
Python and behaves like no bound at all, so it is no bound here
either.) -/
theorem charField_optional_null_rejected (m : Nat) (hm : 0 < m) :
    fieldValidate { kind := FieldKind.char (some m), required := false }
        Value.vnone
      = Except.error Err.noneLenError := by
  have hm0 : ¬ m = 0 := Nat.pos_iff_ne_zero.mp hm
  simp [fieldValidate, baseValidate, hm0, ebind_ok]

/-- C9, witness: the bound `5`. -/
theorem charField_optional_null_rejected_witness :
    0 < 5
    ∧ fieldValidate { kind := FieldKind.char (some 5), required := false }
        Value.vnone
      = Except.error Err.noneLenError :=
  ⟨by decide, charField_optional_null_rejected 5 (by decide)⟩

/-! ### C10 — null values are exempt from the uniqueness scan -/

theorem uniqueScan_null_exempt (m : ModelDef) (st : Store) (r : Rec)
    (l : List (String × FieldSpec))
    (h : ∀ kf ∈ l, kf.2.unique = true → getattrD r kf.1 = Value.vnone) :
    uniqueScan m st r l = Except.ok () := by
  induction l with
  | nil => rfl
  | cons kf rest ih =>
      have hkf := h kf (List.mem_cons_self kf rest)
      have hcond : ¬ (kf.2.unique = true ∧ getattrD r kf.1 ≠ Value.vnone) := by
        intro hc
        exact hc.2 (hkf hc.1)
      rw [uniqueScan]
      rw [if_neg hcond]
      exact ih (fun kf2 hm2 => h kf2 (List.mem_cons_of_mem kf hm2))

theorem toDictField_err (f : FieldSpec) (v : Value) (e : Err)
    (h : toDictField f v = Except.error e) : e = Err.attributeError := by
  rcases f with ⟨kind, req, dflt, uniq⟩
  cases kind <;> simp [toDictField] at h
  split at h
  · cases v <;> simp_all
  · simp_all

theorem toDictVals_err (r : Rec) (l : List (String × FieldSpec)) (e : Err)
    (h : toDictVals r l = Except.error e) : e = Err.attributeError := by
  induction l with
  | nil => simp [toDictVals] at h
  | cons kf rest ih =>
      rw [toDictVals] at h
      cases htd : toDictField kf.2 (getattrD r kf.1) with
      | error e2 =>
          rw [htd, ebind_err] at h
          cases h
          exact toDictField_err kf.2 (getattrD r kf.1) e htd
      | ok w =>
          rw [htd, ebind_ok] at h
          cases hrest : toDictVals r rest with
          | error e2 =>
              rw [hrest, ebind_err] at h
              cases h
              exact ih hrest
          | ok tail => rw [hrest, ebind_ok] at h; cases h

theorem to_dict_err (m : ModelDef) (r : Rec) (e : Err)
    (h : to_dict m r = Except.error e) : e = Err.attributeError := by
  rw [to_dict] at h
  cases hc : toDictVals r m.fields with
  | error e2 =>
      rw [hc, ebind_err] at h
      cases h
      exact toDictVals_err r m.fields e hc
  | ok core => rw [hc, ebind_ok] at h; cases h

/-- C10: a record holding `None` in every field marked `unique` is
exempt from the uniqueness scan at save time — `save` reduces to
building and writing the snapshot, whatever the store already
contains, and in particular never raises `UniqueConstraintViolation`.
Repeating such saves for any number of distinct records (the arbitrary
`st` covers any number of already-persisted null holders) each
succeeds. -/
theorem save_null_unique_exempt (m : ModelDef) (st : Store) (r : Rec)
    (h : ∀ kf ∈ m.fields, kf.2.unique = true → getattrD r kf.1 = Value.vnone) :
    save m st r = (to_dict m r).map (fun d => putKV st r.id d)
    ∧ save m st r ≠ Except.error Err.uniqueConstraintViolation := by
  have hscan := uniqueScan_null_exempt m st r m.fields h
  have hsave : save m st r = (to_dict m r).map (fun d => putKV st r.id d) := by
    rw [save, hscan, ebind_ok]
    cases hd : to_dict m r with
    | error e2 => rw [ebind_err]; rfl
    | ok d => rw [ebind_ok]; rfl
  refine ⟨hsave, ?_⟩
  rw [hsave]
  cases hd : to_dict m r with
  | error e2 =>
      intro hcontra
      have : e2 = Err.attributeError := to_dict_err m r e2 hd
      simp [Except.map, this] at hcontra
  | ok d => simp [Except.map]

/-- C10, witness: saving record `"b"` with a null unique field into
the store already holding record `"a"` with the same null unique field
succeeds and writes the snapshot. -/
theorem save_null_unique_exempt_witness :
    (∀ kf ∈ MU.fields, kf.2.unique = true →
        getattrD recBnull kf.1 = Value.vnone)
    ∧ save MU stUnull recBnull =
        (to_dict MU recBnull).map (fun d => putKV stUnull recBnull.id d)
    ∧ save MU stUnull recBnull ≠ Except.error Err.uniqueConstraintViolation := by
  have h := save_null_unique_exempt MU stUnull recBnull (by decide)
  exact ⟨by decide, h.1, h.2⟩

/-! ### C2 — required fields are checked at construction, not at save -/

/-- C2, counterexample: the claim "for every record in which a
required field holds null at the moment save is called, save raises
`MissingRequiredField` and the store is unchanged" fails: `save` runs
only the uniqueness scan, so saving a record whose required `"name"`
is null (the state a live instance reaches after `obj.name = None`)
succeeds and writes the null to the store. -/
theorem save_required_null_cex :
    MR.fields = [("name", { kind := .char none, required := true })]
    ∧ getattrD recRnull "name" = Value.vnone
    ∧ save MR [] recRnull =
        Except.ok [("a", [("name", Value.vnone), ("id", Value.vstr "a")])] :=
  ⟨rfl, rfl, rfl⟩

theorem fieldValidate_required_null (f : FieldSpec) (hreq : f.required = true) :
    fieldValidate f Value.vnone = Except.error Err.missingRequiredField := by
  rcases f with ⟨kind, req, dflt, uniq⟩
  cases req with
  | false => cases hreq
  | true =>
      cases kind <;>
        simp [fieldValidate, temporalValidate, baseValidate, ebind_err]

theorem initVals_required (kwargs : List (String × Value))
    (l : List (String × FieldSpec)) (vals : List (String × Value))
    (hN : (l.map Prod.fst).Nodup)
    (h : initVals kwargs l = Except.ok vals) :
    ∀ kf ∈ l, kf.2.required = true →
      (vals.lookup kf.1).getD Value.vnone ≠ Value.vnone := by
  induction l generalizing vals with
  | nil => intro kf hkf; cases hkf
  | cons hd rest ih =>
      rw [initVals] at h
      cases hval : fieldValidate hd.2 ((kwargs.lookup hd.1).getD hd.2.default) with
      | error e => rw [hval, ebind_err] at h; cases h
      | ok w =>
          rw [hval, ebind_ok] at h
          cases htail : initVals kwargs rest with
          | error e => rw [htail, ebind_err] at h; cases h
          | ok tail =>
              rw [htail, ebind_ok] at h
              cases h
              have hN2 := List.nodup_cons.mp hN
              intro kf hkf hreq
              rcases List.mem_cons.mp hkf with hkf | hkf
              · subst hkf
                have hvne : (kwargs.lookup kf.1).getD kf.2.default ≠ Value.vnone := by
                  intro hnull
                  rw [hnull, fieldValidate_required_null kf.2 hreq] at hval
                  cases hval
                simp [List.lookup, hvne]
              · have hne : kf.1 ≠ hd.1 := by
                  intro hcontra
                  exact hN2.1 (hcontra ▸ List.mem_map_of_mem Prod.fst hkf)
                have : (kf.1 == hd.1) = false := by
                  simp [beq_iff_eq]
                  exact hne
                simp only [List.lookup, this]
                exact ih tail hN2.2 htail kf hkf hreq

/-- C2, amended: the required-field check is enforced by
`Field.validate` at construction, not by `save`.  Constructing a
record of a model with a required field whose supplied-or-default
value is null raises `MissingRequiredField` (so nothing is ever
written); and any successfully constructed record holds a non-null
value in every required field — the "never null after a successful
save" consequence holds for records as constructed, while `save`
itself performs no required-field check (see the counterexample). -/
theorem save_required_null_amended :
    (∀ (f : FieldSpec) (k genId : String) (kwargs : List (String × Value)),
       f.required = true → (kwargs.lookup k).getD f.default = Value.vnone →
       modelInit ⟨[(k, f)]⟩ genId kwargs = Except.error Err.missingRequiredField)
    ∧ (∀ (m : ModelDef) (genId : String) (kwargs : List (String × Value)) (r : Rec),
       (m.fields.map Prod.fst).Nodup →
       modelInit m genId kwargs = Except.ok r →
       ∀ kf ∈ m.fields, kf.2.required = true → getattrD r kf.1 ≠ Value.vnone) := by
  constructor
  · intro f k genId kwargs hreq hnull
    rw [modelInit, initVals, hnull, fieldValidate_required_null f hreq]
    rfl
  · intro m genId kwargs r hN hinit kf hkf hreq
    rw [modelInit] at hinit
    cases hvals : initVals kwargs m.fields with
    | error e => rw [hvals, ebind_err] at hinit; cases hinit
    | ok vals =>
        rw [hvals, ebind_ok] at hinit
        cases hinit
        exact initVals_required kwargs m.fields vals hN hvals kf hkf hreq

/-- C2, witness for the amended theorem: constructing a record of `MR`
with no arguments fails with `MissingRequiredField`; the successfully
constructed record with `"x"` holds a non-null name. -/
theorem save_required_null_amended_witness :
    modelInit MR "g" [] = Except.error Err.missingRequiredField
    ∧ getattrD ⟨"g", [("name", Value.vstr "x")]⟩ "name" ≠ Value.vnone := by
  constructor
  · exact save_required_null_amended.1
      { kind := .char none, required := true } "name" "g" [] rfl rfl
  · exact save_required_null_amended.2 MR "g" [("name", Value.vstr "x")]
      ⟨"g", [("name", Value.vstr "x")]⟩ (by decide) rfl
      ("name", { kind := .char none, required := true }) (by decide) rfl

/-! ### C1 — the uniqueness scan -/

/-- C1, counterexample: the claim quantifies over every record "whose
value in a unique field equals the value another persisted record
holds (under a different identifier)" — but a null value is excluded
from the scan (`if value is not None`), so with the persisted record
`"a"` and the incoming record `"b"` both holding `None` in the unique
field `"sku"`, the values are equal and the identifiers differ, yet
`save` succeeds and writes rather than raising
`UniqueConstraintViolation`. -/
theorem unique_violation_cex :
    MU.fields = [("sku", { kind := .char none, unique := true })]
    ∧ allRecs MU stUnull = Except.ok [⟨"a", [("sku", Value.vnone)]⟩]
    ∧ getattrD (⟨"a", [("sku", Value.vnone)]⟩ : Rec) "sku"
        = getattrD recBnull "sku"
    ∧ (⟨"a", [("sku", Value.vnone)]⟩ : Rec).id ≠ recBnull.id
    ∧ save MU stUnull recBnull =
        Except.ok [("a", [("sku", Value.vnone), ("id", Value.vstr "a")]),
                   ("b", [("sku", Value.vnone), ("id", Value.vstr "b")])] :=
  ⟨rfl, rfl, rfl, by decide, rfl⟩

theorem whereEq_of_allRecs (m : ModelDef) (st : Store) (k : String) (v : Value)
    (objs : List Rec) (hall : allRecs m st = Except.ok objs) :
    whereEq m st k v =
      Except.ok (objs.filter (fun o => pyEq (getattrD o k) v)) := by
  rw [whereEq, hall, ebind_ok]
  rfl

theorem uniqueScan_violation (m : ModelDef) (st : Store) (r : Rec)
    (objs : List Rec) (hall : allRecs m st = Except.ok objs)
    (k : String) (f : FieldSpec) (o : Rec)
    (hmem : o ∈ objs) (hid : o.id ≠ r.id)
    (heq : getattrD o k = getattrD r k) (hnn : getattrD r k ≠ Value.vnone)
    (hu : f.unique = true) :
    ∀ l : List (String × FieldSpec), (k, f) ∈ l →
      uniqueScan m st r l = Except.error Err.uniqueConstraintViolation := by
  intro l hl
  induction l with
  | nil => cases hl
  | cons hd rest ih =>
      rw [uniqueScan]
      rcases List.mem_cons.mp hl with hl1 | hl2
      · subst hl1
        rw [if_pos ⟨hu, hnn⟩,
          whereEq_of_allRecs m st k (getattrD r k) objs hall, ebind_ok]
        have hany : (objs.filter
            (fun o2 => pyEq (getattrD o2 k) (getattrD r k))).any
              (fun o2 => decide (o2.id ≠ r.id)) = true := by
          refine List.any_eq_true.mpr ⟨o, ?_, by simpa using hid⟩
          refine List.mem_filter.mpr ⟨hmem, ?_⟩
          simp [pyEq, heq]
        rw [if_pos hany]
      · by_cases hc : hd.2.unique = true ∧ getattrD r hd.1 ≠ Value.vnone
        · rcases hd with ⟨k2, f2⟩
          rw [if_pos hc,
            whereEq_of_allRecs m st k2 (getattrD r k2) objs hall, ebind_ok]
          by_cases hany : (objs.filter
              (fun o2 => pyEq (getattrD o2 k2) (getattrD r k2))).any
                (fun o2 => decide (o2.id ≠ r.id)) = true
          · rw [if_pos hany]
          · rw [if_neg hany]
            exact ih hl2
        · rw [if_neg hc]
          exact ih hl2

theorem uniqueScan_clean (m : ModelDef) (st : Store) (r : Rec)
    (objs : List Rec) (hall : allRecs m st = Except.ok objs)
    (hok : ∀ o ∈ objs, o.id ≠ r.id → ∀ kf ∈ m.fields, kf.2.unique = true →
      getattrD r kf.1 ≠ Value.vnone → getattrD o kf.1 ≠ getattrD r kf.1) :
    ∀ l : List (String × FieldSpec), (∀ kf ∈ l, kf ∈ m.fields) →
      uniqueScan m st r l = Except.ok () := by
  intro l hsub
  induction l with
  | nil => rfl
  | cons hd rest ih =>
      rw [uniqueScan]
      have hrest : ∀ kf ∈ rest, kf ∈ m.fields :=
        fun kf hkf => hsub kf (List.mem_cons_of_mem hd hkf)
      by_cases hc : hd.2.unique = true ∧ getattrD r hd.1 ≠ Value.vnone
      · rcases hd with ⟨k2, f2⟩
        rw [if_pos hc, whereEq_of_allRecs m st k2 (getattrD r k2) objs hall,
          ebind_ok]
        have hany : (objs.filter
            (fun o2 => pyEq (getattrD o2 k2) (getattrD r k2))).any
              (fun o2 => decide (o2.id ≠ r.id)) = false := by
          rw [← Bool.not_eq_true, List.any_eq_true]
          rintro ⟨o, homem, hoid⟩
          have hf := List.mem_filter.mp homem
          have hoeq : getattrD o k2 = getattrD r k2 := by
            have := hf.2
            simpa [pyEq] using this
          exact hok o hf.1 (by simpa using hoid) (k2, f2)
            (hsub (k2, f2) (List.mem_cons_self _ _)) hc.1 hc.2 hoeq
        rw [if_neg (by rw [hany]; exact Bool.false_ne_true)]
        exact ih hrest
      · rw [if_neg hc]
        exact ih hrest

/-- C1, amended: the uniqueness scan applies to non-null values.  If a
record holds a non-null value in a field marked `unique` and some
persisted record under a different identifier holds an equal value in
that field, `save` raises `UniqueConstraintViolation` and returns no
store (nothing is written); and re-saving a record while no other
persisted record shares any of its non-null unique values — in
particular re-saving with its own unchanged unique value — never
raises and performs the write. -/
theorem unique_violation_amended :
    (∀ (m : ModelDef) (st : Store) (r : Rec) (k : String) (f : FieldSpec)
       (objs : List Rec) (o : Rec),
       (k, f) ∈ m.fields → f.unique = true → getattrD r k ≠ Value.vnone →
       allRecs m st = Except.ok objs → o ∈ objs → o.id ≠ r.id →
       getattrD o k = getattrD r k →
       save m st r = Except.error Err.uniqueConstraintViolation)
    ∧ (∀ (m : ModelDef) (st : Store) (r : Rec) (objs : List Rec) (d : Snap),
       allRecs m st = Except.ok objs →
       (∀ o ∈ objs, o.id ≠ r.id → ∀ kf ∈ m.fields, kf.2.unique = true →
         getattrD r kf.1 ≠ Value.vnone → getattrD o kf.1 ≠ getattrD r kf.1) →
       to_dict m r = Except.ok d →
       save m st r = Except.ok (putKV st r.id d)) := by
  constructor
  · intro m st r k f objs o hkf hu hnn hall hmem hid heq
    have hscan := uniqueScan_violation m st r objs hall k f o hmem hid heq hnn hu
      m.fields hkf
    rw [save, hscan, ebind_err]
  · intro m st r objs d hall hok hd
    have hscan := uniqueScan_clean m st r objs hall hok m.fields (fun kf hkf => hkf)
    rw [save, hscan, ebind_ok, hd, ebind_ok]
    rfl

/-- C1, witness for the amended theorem: record `"b"` duplicating the
persisted unique value `"X"` of record `"a"` is rejected; re-saving
record `"a"` itself with its unchanged unique value succeeds. -/
theorem unique_violation_amended_witness :
    save MU stUdup recBdup = Except.error Err.uniqueConstraintViolation
    ∧ save MU stUdup recAdup =
        Except.ok (putKV stUdup recAdup.id
          [("sku", Value.vstr "X"), ("id", Value.vstr "a")]) := by
  constructor
  · exact unique_violation_amended.1 MU stUdup recBdup "sku"
      { kind := .char none, unique := true } [recAdup] recAdup
      (by decide) rfl (by decide) rfl (by decide) (by decide) rfl
  · exact unique_violation_amended.2 MU stUdup recAdup [recAdup]
      [("sku", Value.vstr "X"), ("id", Value.vstr "a")] rfl (by decide) rfl

/-! ### C5 — temporal values at construction -/

theorem temporalValidate_iso_ok (k : TKind) (t : Int) :
    temporalValidate k none none false (Value.viso k t) =
      Except.ok (Value.vtemp k t) := by
  simp [temporalValidate, baseValidate, isoParse, ebind_ok]

/-- C5, counterexample: the claim "the constructed record holds the
coerced native temporal value returned by validate (not the raw
string)" fails.  `DateTimeField.validate` does return the coerced
native value for a parseable ISO string, but `Model.__init__` uses
`validate`'s return value only for `AutoField` and stores the raw
supplied value, so the constructed record holds the ISO string
itself. -/
theorem temporal_construction_cex :
    temporalValidate TKind.tdatetime none none false
        (Value.viso TKind.tdatetime 100) =
      Except.ok (Value.vtemp TKind.tdatetime 100)
    ∧ modelInit MT "a" [("ts", Value.viso TKind.tdatetime 100)] =
        Except.ok ⟨"a", [("ts", Value.viso TKind.tdatetime 100)]⟩
    ∧ getattrD ⟨"a", [("ts", Value.viso TKind.tdatetime 100)]⟩ "ts"
        ≠ Value.vtemp TKind.tdatetime 100 :=
  ⟨temporalValidate_iso_ok TKind.tdatetime 100, rfl, by decide⟩

/-- C5, amended: for every temporal kind and every parseable ISO
string, `validate` returns the coerced native temporal value, but the
constructed record stores the raw ISO string (the coercion is
discarded for every field kind except AutoNumber); and a non-null,
non-native, unparseable value fails with `DeserializationError`. -/
theorem temporal_construction_amended :
    (∀ (k : TKind) (t : Int),
       temporalValidate k none none false (Value.viso k t) =
         Except.ok (Value.vtemp k t))
    ∧ (∀ (k : TKind) (t : Int) (genId : String),
       modelInit ⟨[("ts", { kind := .temporal k none none })]⟩ genId
           [("ts", Value.viso k t)] =
         Except.ok ⟨genId, [("ts", Value.viso k t)]⟩)
    ∧ (∀ (k : TKind) (minV maxV : Option Int) (v : Value),
       v ≠ Value.vnone → (∀ k2 t, v ≠ Value.vtemp k2 t) →
       (∀ k2 t, v ≠ Value.viso k2 t) →
       temporalValidate k minV maxV false v =
         Except.error Err.deserializationError) := by
  refine ⟨temporalValidate_iso_ok, ?_, ?_⟩
  · intro k t genId
    rw [modelInit, initVals]
    show (do
      let _ ← fieldValidate { kind := .temporal k none none }
        (Value.viso k t)
      let tail ← initVals [("ts", Value.viso k t)] []
      pure (("ts", Value.viso k t) :: tail) : Except Err _) >>= _ = _
    rw [show fieldValidate { kind := .temporal k none none } (Value.viso k t)
        = Except.ok (Value.vtemp k t) from temporalValidate_iso_ok k t]
    rfl
  · intro k minV maxV v hv hvt hvi
    cases v with
    | vnone => exact absurd rfl hv
    | vtemp k2 t => exact absurd rfl (hvt k2 t)
    | viso k2 t => exact absurd rfl (hvi k2 t)
    | vint n =>
        simp [temporalValidate, baseValidate, isoParse, ebind_ok, ebind_err]
    | vbool b =>
        simp [temporalValidate, baseValidate, isoParse, ebind_ok, ebind_err]
    | vstr s =>
        simp [temporalValidate, baseValidate, isoParse, ebind_ok, ebind_err]

/-- C5, witness for the amended theorem: the datetime kind at
time-stamp `42`, and the unparseable integer `3`. -/
theorem temporal_construction_amended_witness :
    temporalValidate TKind.tdatetime none none false
        (Value.viso TKind.tdatetime 42) =
      Except.ok (Value.vtemp TKind.tdatetime 42)
    ∧ modelInit MT "g" [("ts", Value.viso TKind.tdatetime 42)] =
        Except.ok ⟨"g", [("ts", Value.viso TKind.tdatetime 42)]⟩
    ∧ temporalValidate TKind.tdatetime none none false (Value.vint 3) =
        Except.error Err.deserializationError := by
  refine ⟨temporal_construction_amended.1 TKind.tdatetime 42, ?_, ?_⟩
  · exact temporal_construction_amended.2.1 TKind.tdatetime 42 "g"
  · exact temporal_construction_amended.2.2 TKind.tdatetime none none
      (Value.vint 3) (by decide) (fun k2 t h => Value.noConfusion h)
      (fun k2 t h => Value.noConfusion h)

/-! ### C6 — `all(order_by, limit, offset)` -/

/-- C6, counterexample: the claim reads the result as "sorted, then
sliced by offset first and limit second" unconditionally, but the
source guards both slices with Python truthiness (`if limit:`), so a
zero limit caps nothing: on a one-record store, `all(limit=0)` returns
the record while the claimed slice is empty. -/
theorem query_slicing_cex :
    allRecs MQ stQ1 = Except.ok [recQ0]
    ∧ all MQ stQ1 none (some 0) none = Except.ok [recQ0]
    ∧ specSlice (some 0) none [recQ0] = []
    ∧ ([recQ0] : List Rec) ≠ [] :=
  ⟨rfl, rfl, rfl, by decide⟩

theorem offsetSlice_eq (off : Option Nat) (l : List Rec) :
    (match off with
      | some o => if o ≠ 0 then l.drop o else l
      | none => l) = l.drop (off.getD 0) := by
  cases off with
  | none => simp
  | some o => by_cases h : o = 0 <;> simp [h]

theorem limitSlice_eq (lim : Option Nat) (l : List Rec) :
    (match lim with
      | some n => if n ≠ 0 then l.take n else l
      | none => l) = if lim = some 0 then l else specTake lim l := by
  cases lim with
  | none => rfl
  | some n => by_cases h : n = 0 <;> simp [h, specTake]

theorem pySortBy_desc_price (objs : List Rec) :
    pySortBy "-price" objs = List.insertionSort (descLe "price") objs := rfl

/-- C6, amended: `all(order_by, limit, offset)` returns every record,
sorted by the single named field (descending — non-increasing sort
key — when the name has a leading `-`), then sliced by offset first
and limit second, where a zero limit (being falsy, like an absent one)
applies no cap; in particular `all(limit=1, offset=1)` returns exactly
the second record of the default-ordered full listing. -/
theorem query_slicing_amended :
    (∀ (m : ModelDef) (st : Store) (ob : Option String) (lim off : Option Nat)
       (objs : List Rec),
       allRecs m st = Except.ok objs → lim ≠ some 0 →
       all m st ob lim off =
         Except.ok (specSlice lim off
           (match ob with | some s => pySortBy s objs | none => objs)))
    ∧ (∀ (m : ModelDef) (st : Store) (objs l : List Rec),
       allRecs m st = Except.ok objs →
       all m st (some "-price") none none = Except.ok l →
       (∀ o ∈ objs, getattrD o "price" = Value.vint (sortKeyInt "price" o)) →
       l.Sorted (descLe "price"))
    ∧ (∀ (m : ModelDef) (st : Store) (r0 r1 : Rec) (rest : List Rec),
       allRecs m st = Except.ok (r0 :: r1 :: rest) →
       all m st none (some 1) (some 1) = Except.ok [r1]) := by
  refine ⟨?_, ?_, ?_⟩
  · intro m st ob lim off objs hall hlim
    simp only [all, hall, ebind_ok]
    rw [offsetSlice_eq off, limitSlice_eq lim, if_neg hlim]
    rfl
  · intro m st objs l hall hq _
    simp only [all, hall, ebind_ok] at hq
    cases hq
    rw [pySortBy_desc_price]
    exact List.sorted_insertionSort (descLe "price") objs
  · intro m st r0 r1 rest hall
    simp only [all, hall, ebind_ok]
    rfl

/-- C6, witness for the amended theorem: the three-record store with
prices 5, 2, 9 — descending sort with offset 1 and limit 2, the
sortedness of the descending listing, and the second record via
`limit=1, offset=1`. -/
theorem query_slicing_amended_witness :
    all MQ stQ3 (some "-price") (some 2) (some 1) =
      Except.ok (specSlice (some 2) (some 1)
        (pySortBy "-price" [⟨"r0", [("price", Value.vint 5)]⟩,
          ⟨"r1", [("price", Value.vint 2)]⟩,
          ⟨"r2", [("price", Value.vint 9)]⟩]))
    ∧ List.Sorted (descLe "price")
        [⟨"r2", [("price", Value.vint 9)]⟩,
         ⟨"r0", [("price", Value.vint 5)]⟩,
         ⟨"r1", [("price", Value.vint 2)]⟩]
    ∧ all MQ stQ3 none (some 1) (some 1) =
        Except.ok [⟨"r1", [("price", Value.vint 2)]⟩] := by
  refine ⟨?_, ?_, ?_⟩
  · exact query_slicing_amended.1 MQ stQ3 (some "-price") (some 2) (some 1)
      [⟨"r0", [("price", Value.vint 5)]⟩, ⟨"r1", [("price", Value.vint 2)]⟩,
       ⟨"r2", [("price", Value.vint 9)]⟩] rfl (by decide)
  · exact query_slicing_amended.2.1 MQ stQ3
      [⟨"r0", [("price", Value.vint 5)]⟩, ⟨"r1", [("price", Value.vint 2)]⟩,
       ⟨"r2", [("price", Value.vint 9)]⟩]
      [⟨"r2", [("price", Value.vint 9)]⟩, ⟨"r0", [("price", Value.vint 5)]⟩,
       ⟨"r1", [("price", Value.vint 2)]⟩] rfl rfl (by decide)
  · exact query_slicing_amended.2.2 MQ stQ3
      ⟨"r0", [("price", Value.vint 5)]⟩ ⟨"r1", [("price", Value.vint 2)]⟩
      [⟨"r2", [("price", Value.vint 9)]⟩] rfl

/-! ### C3 — save / fetch round trip -/

theorem putKV_lookup_self {β : Type} (st : List (String × β)) (k : String)
    (v : β) : (putKV st k v).lookup k = some v := by
  induction st with
  | nil => simp [putKV, List.lookup]
  | cons e rest ih =>
      rcases e with ⟨k2, v2⟩
      rw [putKV]
      by_cases h : k2 = k
      · rw [if_pos h]
        simp [List.lookup]
      · rw [if_neg h]
        have hbeq : (k == k2) = false := by
          simp [beq_iff_eq]
          exact fun hc => h hc.symm
        simp only [List.lookup, hbeq]
        exact ih

/-- C3, counterexample: the claim "for every record r, saving r and
then fetching it back by its identifier yields a record whose Snapshot
equals r's Snapshot" fails for a record holding a dangling ForeignKey
reference (which validation deliberately permits): the stored
identifier `"b1"` does not resolve at fetch time, `get_by_id` maps it
to `None`, and the fetched Snapshot holds a null where the original
held `"b1"`. -/
theorem roundtrip_cex :
    RT.saveA [] rtDangling =
      Except.ok [("a1", ⟨"a1", Value.vint 1, some "b1", [], Value.vnone⟩)]
    ∧ RT.get_by_idA
        [("a1", ⟨"a1", Value.vint 1, some "b1", [], Value.vnone⟩)] [] "a1" =
      Except.ok (some ⟨"a1", Value.vint 1, none, [], Value.vnone⟩)
    ∧ RT.to_dictA ⟨"a1", Value.vint 1, none, [], Value.vnone⟩ =
        Except.ok ⟨"a1", Value.vint 1, none, [], Value.vnone⟩
    ∧ RT.to_dictA rtDangling =
        Except.ok ⟨"a1", Value.vint 1, some "b1", [], Value.vnone⟩
    ∧ (⟨"a1", Value.vint 1, none, [], Value.vnone⟩ : RT.ASnap) ≠
        ⟨"a1", Value.vint 1, some "b1", [], Value.vnone⟩ :=
  ⟨rfl, rfl, rfl, rfl, by decide⟩

theorem from_dictB_ok (bs : RT.BSnap)
    (h : (match bs.bname with
      | Value.vnone => true
      | Value.vstr _ => true
      | Value.viso _ _ => true
      | _ => false) = true) :
    RT.from_dictB bs = Except.ok ⟨bs.id, bs.bname⟩ := by
  rcases bs with ⟨bid, bn⟩
  cases bn <;>
    simp_all [RT.from_dictB, fieldValidate, baseValidate, Value.isStr, ebind_ok]

theorem get_by_idB_resolves (stB : RT.StoreB) (i : String)
    (h : RT.resolvesB stB i = true) :
    ∃ br : RT.BRec, RT.get_by_idB stB i = Except.ok (some br) ∧ br.id = i := by
  unfold RT.resolvesB at h
  cases hl : stB.lookup i with
  | none => rw [hl] at h; cases h
  | some bs =>
      rw [hl] at h
      have h2 := Bool.and_eq_true _ _ |>.mp h
      have hid : bs.id = i := of_decide_eq_true h2.1
      refine ⟨⟨bs.id, bs.bname⟩, ?_, hid⟩
      unfold RT.get_by_idB
      rw [hl]
      show (do pure (some (← RT.from_dictB bs)) : Except Err (Option RT.BRec)) = _
      rw [from_dictB_ok bs h2.2, ebind_ok]
      rfl

theorem ts_roundtrip (v : Value) (h : RT.tsOk v = true) :
    ∃ w, toDictField { kind := FieldKind.temporal .tdatetime none none } v
        = Except.ok w
      ∧ fromDictField { kind := FieldKind.temporal .tdatetime none none } w
        = Except.ok v
      ∧ ∃ u, temporalValidate .tdatetime none none false v = Except.ok u := by
  cases v with
  | vnone => exact ⟨Value.vnone, rfl, rfl, Value.vnone, rfl⟩
  | vtemp k t =>
      cases k with
      | tdatetime =>
          exact ⟨Value.viso .tdatetime t, rfl, rfl, Value.vtemp .tdatetime t, rfl⟩
      | tdate => cases h
      | ttime => cases h
  | vint n => cases h
  | vbool b => cases h
  | vstr s => cases h
  | viso k t => cases h

theorem int_field_ok (v : Value) (h : RT.intOk v = true) :
    fieldValidate { kind := FieldKind.integer } v = Except.ok Value.vnone := by
  cases v <;>
    simp_all [RT.intOk, fieldValidate, baseValidate, Value.isIntLike, ebind_ok]

theorem members_roundtrip (stB : RT.StoreB) (l : List RT.BRec)
    (h : ∀ br ∈ l, RT.resolvesB stB br.id = true) :
    ∃ ms2 ms3, RT.resolveIds stB (l.map RT.BRec.id) = Except.ok ms2
      ∧ RT.checkMembers ms2 = Except.ok ms3
      ∧ ms3.map RT.BRec.id = l.map RT.BRec.id := by
  induction l with
  | nil => exact ⟨[], [], rfl, rfl, rfl⟩
  | cons br rest ih =>
      obtain ⟨br2, hget, hid⟩ :=
        get_by_idB_resolves stB br.id (h br (List.mem_cons_self br rest))
      obtain ⟨ms2, ms3, h1, h2, h3⟩ :=
        ih (fun b hb => h b (List.mem_cons_of_mem br hb))
      refine ⟨some br2 :: ms2, br2 :: ms3, ?_, ?_, ?_⟩
      · rw [List.map_cons, RT.resolveIds, hget, ebind_ok, h1, ebind_ok]
        rfl
      · rw [RT.checkMembers, h2, ebind_ok]
        rfl
      · simp [h3, hid]

/-- C3, amended: for every record whose scalar fields are well typed
(the integer field holds an integer or null, the temporal field a
native datetime or null) and whose relational references all resolve
in the referenced store at fetch time (ForeignKey target persisted
under its own, non-falsy, identifier; every ManyToMany member
persisted likewise), saving and then fetching by identifier yields a
record with an equal Snapshot.  Dangling references break the
round trip (see the counterexample). -/
theorem roundtrip_amended (stA : RT.StoreA) (stB : RT.StoreB) (r : RT.ARec)
    (hn : RT.intOk r.n = true) (hts : RT.tsOk r.ts = true)
    (hb : ∀ br, r.b = some br → br.id ≠ "" ∧ RT.resolvesB stB br.id = true)
    (hms : ∀ br ∈ r.ms, RT.resolvesB stB br.id = true) :
    (RT.saveFetch stA stB r).map (Option.map RT.to_dictA) =
      Except.ok (some (RT.to_dictA r)) := by
  rcases r with ⟨rid, rn, rb, rms, rts⟩
  obtain ⟨w, htdw, hfdw, u, hvalts⟩ := ts_roundtrip rts hts
  have hsnap : RT.to_dictA ⟨rid, rn, rb, rms, rts⟩ =
      Except.ok ⟨rid, rn, rb.map RT.BRec.id, rms.map RT.BRec.id, w⟩ := by
    rw [RT.to_dictA, htdw, ebind_ok]
    rfl
  have hsave : RT.saveA stA ⟨rid, rn, rb, rms, rts⟩ =
      Except.ok (putKV stA rid
        ⟨rid, rn, rb.map RT.BRec.id, rms.map RT.BRec.id, w⟩) := by
    rw [RT.saveA, hsnap, ebind_ok]
    rfl
  obtain ⟨b2, hb2, hb2id⟩ :
      ∃ b2 : Option RT.BRec,
        (match (⟨rid, rn, rb.map RT.BRec.id, rms.map RT.BRec.id, w⟩ : RT.ASnap).b
          with
          | some i => if i = "" then Except.ok none else RT.get_by_idB stB i
          | none => Except.ok none) = Except.ok b2
        ∧ b2.map RT.BRec.id = rb.map RT.BRec.id := by
    cases hrb : rb with
    | none => exact ⟨none, rfl, rfl⟩
    | some br =>
        obtain ⟨hne, hres⟩ := hb br (by rw [hrb])
        obtain ⟨br2, hget, hid⟩ := get_by_idB_resolves stB br.id hres
        refine ⟨some br2, ?_, by simp [hid]⟩
        show (if br.id = "" then Except.ok none else RT.get_by_idB stB br.id)
          = Except.ok (some br2)
        rw [if_neg hne, hget]
  obtain ⟨ms2, ms3, hms2, hms3, hms3id⟩ := members_roundtrip stB rms hms
  have hinit : RT.initA rid rn b2 ms2 rts =
      Except.ok ⟨rid, rn, b2, ms3, rts⟩ := by
    rw [RT.initA, int_field_ok rn hn, ebind_ok, hms3, ebind_ok, hvalts, ebind_ok]
    rfl
  have hfetch : RT.from_dictA stB
      ⟨rid, rn, rb.map RT.BRec.id, rms.map RT.BRec.id, w⟩ =
      Except.ok ⟨rid, rn, b2, ms3, rts⟩ := by
    rw [RT.from_dictA, hb2, ebind_ok, hms2, ebind_ok, hfdw, ebind_ok, hinit]
  have hget2 : RT.get_by_idA
      (putKV stA rid ⟨rid, rn, rb.map RT.BRec.id, rms.map RT.BRec.id, w⟩)
      stB rid = Except.ok (some ⟨rid, rn, b2, ms3, rts⟩) := by
    unfold RT.get_by_idA
    rw [putKV_lookup_self stA rid
      ⟨rid, rn, rb.map RT.BRec.id, rms.map RT.BRec.id, w⟩]
    show (do pure (some (← RT.from_dictA stB
      ⟨rid, rn, rb.map RT.BRec.id, rms.map RT.BRec.id, w⟩)) : Except Err _) = _
    rw [hfetch, ebind_ok]
    rfl
  have hsnap2 : RT.to_dictA ⟨rid, rn, b2, ms3, rts⟩ =
      Except.ok ⟨rid, rn, rb.map RT.BRec.id, rms.map RT.BRec.id, w⟩ := by
    rw [RT.to_dictA, htdw, ebind_ok]
    show Except.ok
      (⟨rid, rn, b2.map RT.BRec.id, ms3.map RT.BRec.id, w⟩ : RT.ASnap) = _
    rw [hb2id, hms3id]
  rw [RT.saveFetch, hsave, ebind_ok, hget2]
  show Except.ok (some (RT.to_dictA ⟨rid, rn, b2, ms3, rts⟩)) = _
  rw [hsnap2, hsnap]

/-- C3, witness for the amended theorem: the record `rtGood`, whose
ForeignKey and ManyToMany references both resolve to the persisted
`"b1"` and whose datetime field holds a native value. -/
theorem roundtrip_amended_witness :
    (RT.saveFetch [] rtStB rtGood).map (Option.map RT.to_dictA) =
      Except.ok (some (RT.to_dictA rtGood)) := by
  exact roundtrip_amended [] rtStB rtGood (by decide) (by decide)
    (by intro br hbr
        have : some rtB1 = some br := hbr
        cases this
        exact ⟨by decide, by decide⟩)
    (by decide)

/-! ### C4 — cascading delete: association-store lemmas -/

theorem lookup_mem {β : Type} (st : List (String × β)) (k : String) (v : β)
    (h : st.lookup k = some v) : (k, v) ∈ st := by
  induction st with
  | nil => cases h
  | cons e rest ih =>
      rcases e with ⟨k2, v2⟩
      by_cases hk : k = k2
      · subst hk
        simp [List.lookup] at h
        subst h
        exact List.mem_cons_self _ _
      · have hbeq : (k == k2) = false := by
          simp [beq_iff_eq]
          exact hk
        simp only [List.lookup, hbeq] at h
        exact List.mem_cons_of_mem _ (ih h)

theorem mem_lookup_nodup {β : Type} (st : List (String × β)) (k : String)
    (v : β) (hN : (st.map Prod.fst).Nodup) (h : (k, v) ∈ st) :
    st.lookup k = some v := by
  induction st with
  | nil => cases h
  | cons e rest ih =>
      rcases e with ⟨k2, v2⟩
      rcases List.mem_cons.mp h with h1 | h1
      · cases h1
        simp [List.lookup]
      · have hN2 := List.nodup_cons.mp hN
        have hk : k ≠ k2 := by
          intro hc
          apply hN2.1
          have hm : (k, v).1 ∈ rest.map Prod.fst :=
            List.mem_map_of_mem Prod.fst h1
          rw [← hc]
          exact hm
        have hbeq : (k == k2) = false := by
          simp [beq_iff_eq]
          exact hk
        simp only [List.lookup, hbeq]
        exact ih hN2.2 h1

theorem lookup_filter_ne {β : Type} (st : List (String × β)) (k kd : String) :
    (st.filter (fun e => decide (e.1 ≠ kd))).lookup k
      = if k = kd then none else st.lookup k := by
  induction st with
  | nil => simp [List.lookup]
  | cons e rest ih =>
      rcases e with ⟨k2, v2⟩
      rw [List.filter_cons]
      by_cases hd : k2 = kd
      · have hc : (decide (((k2, v2) : String × β).1 ≠ kd)) = false := by
          simp [hd]
        rw [hc]
        simp only [Bool.false_eq_true, if_false]
        rw [ih]
        by_cases hk : k = kd
        · simp [hk]
        · have hbeq : (k == k2) = false := by
            simp [beq_iff_eq]
            intro hce
            exact hk (hce.trans hd)
          simp only [if_neg hk, List.lookup, hbeq]
      · have hc : (decide (((k2, v2) : String × β).1 ≠ kd)) = true := by
          simpa using hd
        rw [hc]
        simp only [if_true]
        by_cases hkk : k = k2
        · have hbeq : (k == k2) = true := by simpa [beq_iff_eq] using hkk
          have hkd : ¬ k = kd := by
            intro hce
            exact hd (hkk.symm.trans hce)
          simp only [List.lookup, hbeq, if_neg hkd]
        · have hbeq : (k == k2) = false := by
            simp [beq_iff_eq]
            exact hkk
          simp only [List.lookup, hbeq]
          exact ih

theorem delKV_lookup_self {β : Type} (st : List (String × β)) (k : String) :
    (delKV st k).lookup k = none := by
  rw [delKV, lookup_filter_ne, if_pos rfl]

theorem delKV_lookup_ne {β : Type} (st : List (String × β)) (k kd : String)
    (h : k ≠ kd) : (delKV st kd).lookup k = st.lookup k := by
  rw [delKV, lookup_filter_ne, if_neg h]

theorem delKV_sublist {β : Type} (st : List (String × β)) (k : String) :
    (delKV st k).Sublist st :=
  List.filter_sublist st

theorem putKV_lookup_ne {β : Type} (st : List (String × β)) (k k2 : String)
    (v : β) (h : k ≠ k2) : (putKV st k2 v).lookup k = st.lookup k := by
  have hbeq : (k == k2) = false := by
    simp [beq_iff_eq]
    exact h
  induction st with
  | nil => simp [putKV, List.lookup, hbeq]
  | cons e rest ih =>
      rcases e with ⟨k3, v3⟩
      rw [putKV]
      by_cases hk : k3 = k2
      · rw [if_pos hk]
        have hbeq3 : (k == k3) = false := by
          simp [beq_iff_eq]
          intro hce
          exact h (hce.trans hk)
        simp only [List.lookup, hbeq, hbeq3]
      · rw [if_neg hk]
        by_cases hkk : k = k3
        · have hbeq3 : (k == k3) = true := by simpa [beq_iff_eq] using hkk
          simp only [List.lookup, hbeq3]
        · have hbeq3 : (k == k3) = false := by
            simp [beq_iff_eq]
            exact hkk
          simp only [List.lookup, hbeq3]
          exact ih

/-! ### C4 — cascading delete: behaviour of the per-model deletions -/

theorem from_dictG_eq (sp : List (String × CD.PSnap))
    (sc : List (String × CD.CSnap)) (s : CD.GSnap) (cid : String)
    (h : s.c = some cid) (hne : cid ≠ "") :
    CD.from_dictG sp sc s = ⟨s.id, CD.get_by_idC sp sc cid⟩ := by
  unfold CD.from_dictG
  rw [h]
  show (⟨s.id, if cid = "" then none else CD.get_by_idC sp sc cid⟩ : CD.GRec) = _
  rw [if_neg hne]

theorem from_dictC_eq (sp : List (String × CD.PSnap)) (s : CD.CSnap)
    (pid : String) (h : s.p = some pid) (hne : pid ≠ "") :
    CD.from_dictC sp s = ⟨s.id, CD.get_by_idP sp pid⟩ := by
  unfold CD.from_dictC
  rw [h]
  show (⟨s.id, if pid = "" then none else CD.get_by_idP sp pid⟩ : CD.CRec) = _
  rw [if_neg hne]

theorem gsFold_spec (gl : List CD.GRec) (w : CD.World) :
    ((gl.foldl CD.deleteG w).sp = w.sp)
    ∧ ((gl.foldl CD.deleteG w).sc = w.sc)
    ∧ ((gl.foldl CD.deleteG w).so = w.so)
    ∧ (gl.foldl CD.deleteG w).sg.Sublist w.sg
    ∧ (∀ k, (gl.foldl CD.deleteG w).sg.lookup k = w.sg.lookup k
        ∨ (gl.foldl CD.deleteG w).sg.lookup k = none)
    ∧ (∀ g ∈ gl, (gl.foldl CD.deleteG w).sg.lookup g.id = none) := by
  induction gl generalizing w with
  | nil =>
      exact ⟨rfl, rfl, rfl, List.Sublist.refl _, fun k => Or.inl rfl,
        by intro g h; cases h⟩
  | cons g rest ih =>
      rw [List.foldl_cons]
      obtain ⟨h1, h2, h3, h4, h5, h6⟩ := ih (CD.deleteG w g)
      have hsg : (CD.deleteG w g).sg = delKV w.sg g.id := rfl
      refine ⟨h1, h2, h3, ?_, ?_, ?_⟩
      · rw [hsg] at h4
        exact h4.trans (delKV_sublist w.sg g.id)
      · intro k
        rcases h5 k with h | h
        · rw [hsg] at h
          by_cases hk : k = g.id
          · right
            rw [h, hk]
            exact delKV_lookup_self w.sg g.id
          · left
            rw [h]
            exact delKV_lookup_ne w.sg k g.id hk
        · exact Or.inr h
      · intro g2 hg2
        rcases List.mem_cons.mp hg2 with he | hm
        · rcases h5 g2.id with h | h
          · rw [hsg] at h
            rw [h, he]
            exact delKV_lookup_self w.sg g.id
          · exact h
        · exact h6 g2 hm

theorem deleteC_spec (w : CD.World) (c : CD.CRec)
    (hcne : c.id ≠ "") (csnap : CD.CSnap)
    (hcs : w.sc.lookup c.id = some csnap) (hcsid : csnap.id = c.id)
    (hsgId : ∀ e ∈ w.sg, e.2.id = e.1) :
    (CD.deleteC w c).sp = w.sp
    ∧ (CD.deleteC w c).so = w.so
    ∧ (CD.deleteC w c).sc = delKV w.sc c.id
    ∧ (CD.deleteC w c).sg.Sublist w.sg
    ∧ (∀ k, (CD.deleteC w c).sg.lookup k = w.sg.lookup k
        ∨ (CD.deleteC w c).sg.lookup k = none)
    ∧ (∀ e ∈ w.sg, e.2.c = some c.id →
        (CD.deleteC w c).sg.lookup e.1 = none) := by
  obtain ⟨h1, h2, h3, h4, h5, h6⟩ := gsFold_spec (CD.whereGc w.sp w.sc w.sg c) w
  have hdc : CD.deleteC w c =
      { (CD.whereGc w.sp w.sc w.sg c).foldl CD.deleteG w with
        sc := delKV
          (((CD.whereGc w.sp w.sc w.sg c).foldl CD.deleteG w).sc) c.id } := rfl
  refine ⟨by rw [hdc]; exact h1, by rw [hdc]; exact h3, ?_, ?_, ?_, ?_⟩
  · rw [hdc]
    show delKV (((CD.whereGc w.sp w.sc w.sg c).foldl CD.deleteG w).sc) c.id = _
    rw [h2]
  · rw [hdc]
    exact h4
  · intro k
    rw [hdc]
    exact h5 k
  · intro e he hec
    have hgid : e.2.id = e.1 := hsgId e he
    have hfg : CD.from_dictG w.sp w.sc e.2 =
        ⟨e.2.id, CD.get_by_idC w.sp w.sc c.id⟩ :=
      from_dictG_eq w.sp w.sc e.2 c.id hec hcne
    have hgc : CD.get_by_idC w.sp w.sc c.id =
        some (CD.from_dictC w.sp csnap) := by
      unfold CD.get_by_idC
      rw [hcs]
      rfl
    have hres : CD.from_dictG w.sp w.sc e.2 ∈ CD.whereGc w.sp w.sc w.sg c := by
      unfold CD.whereGc CD.allG
      refine List.mem_filter.mpr ⟨?_, ?_⟩
      · have := List.mem_map_of_mem
          (fun e2 : String × CD.GSnap => CD.from_dictG w.sp w.sc e2.2) he
        exact this
      · rw [hfg]
        show (match (⟨e.2.id, CD.get_by_idC w.sp w.sc c.id⟩ : CD.GRec).c with
          | some cr => decide (cr.id = c.id)
          | none => false) = true
        rw [show (⟨e.2.id, CD.get_by_idC w.sp w.sc c.id⟩ : CD.GRec).c
          = CD.get_by_idC w.sp w.sc c.id from rfl, hgc]
        have : (CD.from_dictC w.sp csnap).id = c.id := by
          unfold CD.from_dictC
          exact hcsid
        simp [this]
    have hnone := h6 _ hres
    rw [hfg] at hnone
    have : (⟨e.2.id, CD.get_by_idC w.sp w.sc c.id⟩ : CD.GRec).id = e.1 := hgid
    rw [this] at hnone
    rw [hdc]
    exact hnone

theorem csFold_spec (cs : List CD.CRec) (w : CD.World)
    (hne : ∀ c ∈ cs, c.id ≠ "")
    (hcsN : (cs.map CD.CRec.id).Nodup)
    (hlk : ∀ c ∈ cs, ∃ csnap, w.sc.lookup c.id = some csnap ∧ csnap.id = c.id)
    (hsgId : ∀ e ∈ w.sg, e.2.id = e.1)
    (hsgN : (w.sg.map Prod.fst).Nodup) :
    ((cs.foldl CD.deleteC w).sp = w.sp)
    ∧ ((cs.foldl CD.deleteC w).so = w.so)
    ∧ (cs.foldl CD.deleteC w).sc.Sublist w.sc
    ∧ (cs.foldl CD.deleteC w).sg.Sublist w.sg
    ∧ (∀ c ∈ cs, (cs.foldl CD.deleteC w).sc.lookup c.id = none)
    ∧ (∀ k, (cs.foldl CD.deleteC w).sg.lookup k = w.sg.lookup k
        ∨ (cs.foldl CD.deleteC w).sg.lookup k = none)
    ∧ (∀ k, (cs.foldl CD.deleteC w).sc.lookup k = w.sc.lookup k
        ∨ (cs.foldl CD.deleteC w).sc.lookup k = none)
    ∧ (∀ c ∈ cs, ∀ e ∈ w.sg, e.2.c = some c.id →
        (cs.foldl CD.deleteC w).sg.lookup e.1 = none) := by
  induction cs generalizing w with
  | nil =>
      refine ⟨rfl, rfl, List.Sublist.refl _, List.Sublist.refl _,
        ?_, ?_, ?_, ?_⟩
      · intro c h
        cases h
      · intro k
        exact Or.inl rfl
      · intro k
        exact Or.inl rfl
      · intro c h
        cases h
  | cons c rest ih =>
      obtain ⟨csnap, hcs, hcsid⟩ := hlk c (List.mem_cons_self c rest)
      have hcne : c.id ≠ "" := hne c (List.mem_cons_self c rest)
      obtain ⟨hA1, hA2, hA3, hA4, hA5, hA6⟩ :=
        deleteC_spec w c hcne csnap hcs hcsid hsgId
      have hNrest := List.nodup_cons.mp hcsN
      have hlk2 : ∀ c2 ∈ rest, ∃ cs2,
          (CD.deleteC w c).sc.lookup c2.id = some cs2 ∧ cs2.id = c2.id := by
        intro c2 hc2
        obtain ⟨cs2, hcs2, hcs2id⟩ := hlk c2 (List.mem_cons_of_mem c hc2)
        have hcne2 : c2.id ≠ c.id := by
          intro hcontra
          exact hNrest.1 (hcontra ▸ List.mem_map_of_mem CD.CRec.id hc2)
        refine ⟨cs2, ?_, hcs2id⟩
        rw [hA3, delKV_lookup_ne w.sc c2.id c.id hcne2]
        exact hcs2
      have hsgId2 : ∀ e ∈ (CD.deleteC w c).sg, e.2.id = e.1 :=
        fun e he => hsgId e (hA4.subset he)
      have hsgN2 : ((CD.deleteC w c).sg.map Prod.fst).Nodup :=
        List.Nodup.sublist (List.Sublist.map Prod.fst hA4) hsgN
      obtain ⟨h1, h2, h3, h4, h5, h6, h7, h8⟩ := ih (CD.deleteC w c)
        (fun c2 hc2 => hne c2 (List.mem_cons_of_mem c hc2)) hNrest.2
        hlk2 hsgId2 hsgN2
      rw [List.foldl_cons]
      refine ⟨h1.trans hA1, h2.trans hA2, ?_, h4.trans hA4, ?_, ?_, ?_, ?_⟩
      · refine h3.trans ?_
        rw [hA3]
        exact delKV_sublist w.sc c.id
      · intro c2 hc2
        rcases List.mem_cons.mp hc2 with he | hm
        · rcases h7 c2.id with h | h
          · rw [h, hA3, he]
            exact delKV_lookup_self w.sc c.id
          · exact h
        · exact h5 c2 hm
      · intro k
        rcases h6 k with h | h
        · rcases hA5 k with h2 | h2
          · exact Or.inl (h.trans h2)
          · exact Or.inr (h.trans h2)
        · exact Or.inr h
      · intro k
        rcases h7 k with h | h
        · rw [h, hA3]
          by_cases hk : k = c.id
          · right
            rw [hk]
            exact delKV_lookup_self w.sc c.id
          · left
            exact delKV_lookup_ne w.sc k c.id hk
        · exact Or.inr h
      · intro c2 hc2 e he hec
        rcases List.mem_cons.mp hc2 with hhd | hm
        · have hnone := hA6 e he (by rw [hec, hhd])
          rcases h6 e.1 with h | h
          · rw [h]
            exact hnone
          · exact h
        · cases hlg : (CD.deleteC w c).sg.lookup e.1 with
          | none =>
              rcases h6 e.1 with h | h
              · rw [h]
                exact hlg
              · exact h
          | some gs2 =>
              have hmem2 : (e.1, gs2) ∈ (CD.deleteC w c).sg :=
                lookup_mem _ _ _ hlg
              have hmemw : (e.1, gs2) ∈ w.sg := hA4.subset hmem2
              have heq : gs2 = e.2 := by
                have l1 := mem_lookup_nodup w.sg e.1 gs2 hsgN hmemw
                have l2 := mem_lookup_nodup w.sg e.1 e.2 hsgN (by
                  have : (e.1, e.2) = e := rfl
                  rw [this]
                  exact he)
                rw [l1] at l2
                exact Option.some.inj l2
              have := h8 c2 hm (e.1, gs2) hmem2 (by
                show gs2.c = some c2.id
                rw [heq]
                exact hec)
              exact this

/-! ### C4 — cascading delete: the ManyToMany cleanup -/

theorem getByIdP_resolves (sp : List (String × CD.PSnap)) (i : String)
    (hspId : ∀ e ∈ sp, e.2.id = e.1) (h : (sp.lookup i).isSome = true) :
    CD.get_by_idP sp i = some ⟨i⟩ := by
  cases hl : sp.lookup i with
  | none => rw [hl] at h; cases h
  | some ps =>
      unfold CD.get_by_idP
      rw [hl]
      have hid : ps.id = i := hspId (i, ps) (lookup_mem sp i ps hl)
      simp [hid]

theorem resolveMembers_ok (sp : List (String × CD.PSnap))
    (hspId : ∀ e ∈ sp, e.2.id = e.1) (ids : List String)
    (h : ∀ i ∈ ids, (sp.lookup i).isSome = true) :
    CD.resolveMembers sp ids =
      Except.ok (ids.map (fun i => (⟨i⟩ : CD.PRec))) := by
  induction ids with
  | nil => rfl
  | cons i rest ih =>
      have hres := getByIdP_resolves sp i hspId (h i (List.mem_cons_self i rest))
      show (match CD.get_by_idP sp i with
        | some pr => do
            let tail ← CD.resolveMembers sp rest
            pure (pr :: tail)
        | none => Except.error Err.typeMismatch) = _
      rw [hres]
      show (do
        let tail ← CD.resolveMembers sp rest
        pure ((⟨i⟩ : CD.PRec) :: tail) : Except Err (List CD.PRec)) = _
      rw [ih (fun j hj => h j (List.mem_cons_of_mem i hj)), ebind_ok]
      rfl

theorem from_dictO_ok (sp : List (String × CD.PSnap))
    (hspId : ∀ e ∈ sp, e.2.id = e.1) (s : CD.OSnap)
    (h : ∀ i ∈ s.members, (sp.lookup i).isSome = true) :
    CD.from_dictO sp s =
      Except.ok ⟨s.id, s.members.map (fun i => (⟨i⟩ : CD.PRec))⟩ := by
  unfold CD.from_dictO
  rw [resolveMembers_ok sp hspId s.members h, ebind_ok]
  rfl

theorem allO_ok (sp : List (String × CD.PSnap))
    (hspId : ∀ e ∈ sp, e.2.id = e.1) (so : List (String × CD.OSnap))
    (h : ∀ e ∈ so, ∀ i ∈ e.2.members, (sp.lookup i).isSome = true) :
    CD.allO sp so = Except.ok (so.map (fun e =>
      (⟨e.2.id, e.2.members.map (fun i => (⟨i⟩ : CD.PRec))⟩ : CD.ORec))) := by
  induction so with
  | nil => rfl
  | cons e rest ih =>
      show (do
        let r ← CD.from_dictO sp e.2
        let tail ← CD.allO sp rest
        pure (r :: tail) : Except Err (List CD.ORec)) = _
      rw [from_dictO_ok sp hspId e.2 (h e (List.mem_cons_self e rest)), ebind_ok,
        ih (fun e2 he2 => h e2 (List.mem_cons_of_mem e he2)), ebind_ok]
      rfl

theorem not_mem_filtered (l : List CD.PRec) (xid : String) :
    xid ∉ (l.filter (fun pr => decide (pr.id ≠ xid))).map CD.PRec.id := by
  intro h
  rcases List.mem_map.mp h with ⟨pr, hmem, hid⟩
  have h2 := (List.mem_filter.mp hmem).2
  simp at h2
  exact h2 hid

theorem mem_map_filter_ne_length (l : List CD.PRec) (xid : String)
    (h : xid ∈ l.map CD.PRec.id) :
    (l.filter (fun pr => decide (pr.id ≠ xid))).length ≠ l.length := by
  induction l with
  | nil => cases h
  | cons pr rest ih =>
      rw [List.filter_cons]
      rcases List.mem_cons.mp (by simpa using h :
          xid ∈ pr.id :: rest.map CD.PRec.id) with h1 | h1
      · have hc : (decide (pr.id ≠ xid)) = false := by simp [h1.symm]
        rw [hc]
        simp only [Bool.false_eq_true, if_false, List.length_cons]
        have := List.length_filter_le (fun pr => decide (pr.id ≠ xid)) rest
        omega
      · by_cases hc : pr.id = xid
        · have hcd : (decide (pr.id ≠ xid)) = false := by simp [hc]
          rw [hcd]
          simp only [Bool.false_eq_true, if_false, List.length_cons]
          have := List.length_filter_le (fun pr => decide (pr.id ≠ xid)) rest
          omega
        · have hcd : (decide (pr.id ≠ xid)) = true := by simpa using hc
          rw [hcd]
          simp only [if_true, List.length_cons]
          have := ih h1
          omega

theorem m2mStep_so (x : CD.PRec) (w : CD.World) (o : CD.ORec) :
    (CD.m2mStep x w o).sp = w.sp
    ∧ (CD.m2mStep x w o).sc = w.sc
    ∧ (CD.m2mStep x w o).sg = w.sg
    ∧ ((CD.m2mStep x w o).so = CD.saveO w.so
        ⟨o.id, o.members.filter (fun pr => decide (pr.id ≠ x.id))⟩
      ∨ (CD.m2mStep x w o).so = w.so) := by
  by_cases h : o.members.length =
      (o.members.filter (fun pr => decide (pr.id ≠ x.id))).length
  · have hstep : CD.m2mStep x w o = w := by
      show (if o.members.length ≠
          (o.members.filter (fun pr => decide (pr.id ≠ x.id))).length
        then { w with so := (CD.saveO w.so
          ⟨o.id, o.members.filter (fun pr => decide (pr.id ≠ x.id))⟩) }
        else w) = w
      exact if_neg (fun hc => hc h)
    rw [hstep]
    exact ⟨rfl, rfl, rfl, Or.inr rfl⟩
  · have hstep : CD.m2mStep x w o = { w with so := (CD.saveO w.so
        ⟨o.id, o.members.filter (fun pr => decide (pr.id ≠ x.id))⟩) } := by
      show (if o.members.length ≠
          (o.members.filter (fun pr => decide (pr.id ≠ x.id))).length
        then { w with so := (CD.saveO w.so
          ⟨o.id, o.members.filter (fun pr => decide (pr.id ≠ x.id))⟩) }
        else w) = _
      exact if_pos h
    rw [hstep]
    exact ⟨rfl, rfl, rfl, Or.inl rfl⟩

theorem m2mFold_frame (x : CD.PRec) (os : List CD.ORec) (w : CD.World) :
    ((os.foldl (CD.m2mStep x) w).sp = w.sp)
    ∧ ((os.foldl (CD.m2mStep x) w).sc = w.sc)
    ∧ ((os.foldl (CD.m2mStep x) w).sg = w.sg) := by
  induction os generalizing w with
  | nil => exact ⟨rfl, rfl, rfl⟩
  | cons o rest ih =>
      rw [List.foldl_cons]
      obtain ⟨h1, h2, h3⟩ := ih (CD.m2mStep x w o)
      obtain ⟨g1, g2, g3, _⟩ := m2mStep_so x w o
      exact ⟨h1.trans g1, h2.trans g2, h3.trans g3⟩

theorem m2mFold_lookup_ne (x : CD.PRec) (os : List CD.ORec) (w : CD.World)
    (k : String) (hno : ∀ o ∈ os, o.id ≠ k) :
    (os.foldl (CD.m2mStep x) w).so.lookup k = w.so.lookup k := by
  induction os generalizing w with
  | nil => rfl
  | cons o rest ih =>
      rw [List.foldl_cons,
        ih (CD.m2mStep x w o) (fun o2 h2 => hno o2 (List.mem_cons_of_mem o h2))]
      obtain ⟨_, _, _, h4⟩ := m2mStep_so x w o
      rcases h4 with h | h
      · rw [h]
        unfold CD.saveO
        exact putKV_lookup_ne w.so k o.id _
          (fun hc => hno o (List.mem_cons_self o rest) hc.symm)
      · rw [h]

theorem m2mFold_cleans (x : CD.PRec) (os : List CD.ORec) (w : CD.World)
    (hN : (os.map CD.ORec.id).Nodup) (o : CD.ORec) (ho : o ∈ os)
    (hw : w.so.lookup o.id = some ⟨o.id, o.members.map CD.PRec.id⟩) :
    ∃ ms2 : List String,
      (os.foldl (CD.m2mStep x) w).so.lookup o.id = some ⟨o.id, ms2⟩
      ∧ x.id ∉ ms2 := by
  induction os generalizing w with
  | nil => cases ho
  | cons o0 rest ih =>
      have hNr := List.nodup_cons.mp hN
      rw [List.foldl_cons]
      rcases List.mem_cons.mp ho with he | hm
      · subst he
        have hrest : ∀ o2 ∈ rest, o2.id ≠ o.id := by
          intro o2 h2 hc
          exact hNr.1 (hc ▸ List.mem_map_of_mem CD.ORec.id h2)
        rw [m2mFold_lookup_ne x rest (CD.m2mStep x w o) o.id hrest]
        by_cases hx : x.id ∈ o.members.map CD.PRec.id
        · have hlen := mem_map_filter_ne_length o.members x.id hx
          have hstep : (CD.m2mStep x w o).so = CD.saveO w.so
              ⟨o.id, o.members.filter (fun pr => decide (pr.id ≠ x.id))⟩ := by
            unfold CD.m2mStep
            rw [if_pos (fun hc => hlen hc.symm)]
          refine ⟨(o.members.filter
              (fun pr => decide (pr.id ≠ x.id))).map CD.PRec.id, ?_, ?_⟩
          · rw [hstep]
            unfold CD.saveO
            exact putKV_lookup_self w.so o.id _
          · exact not_mem_filtered o.members x.id
        · have hlen : o.members.length =
              (o.members.filter (fun pr => decide (pr.id ≠ x.id))).length := by
            by_contra hc
            apply hx
            by_contra hx2
            apply hc
            have : o.members.filter (fun pr => decide (pr.id ≠ x.id)) =
                o.members := by
              apply List.filter_eq_self.mpr
              intro pr hpr
              simp only [decide_eq_true_eq]
              intro hce
              exact hx2 (hce ▸ List.mem_map_of_mem CD.PRec.id hpr)
            rw [this]
          have hstep : (CD.m2mStep x w o).so = w.so := by
            unfold CD.m2mStep
            rw [if_neg (fun hc => hc hlen)]
          rw [hstep, hw]
          exact ⟨o.members.map CD.PRec.id, rfl, hx⟩
      · have hne0 : o.id ≠ o0.id := by
          intro hc
          exact hNr.1 (hc ▸ List.mem_map_of_mem CD.ORec.id hm)
        have hw2 : (CD.m2mStep x w o0).so.lookup o.id =
            some ⟨o.id, o.members.map CD.PRec.id⟩ := by
          obtain ⟨_, _, _, h4⟩ := m2mStep_so x w o0
          rcases h4 with h | h
          · rw [h]
            unfold CD.saveO
            rw [putKV_lookup_ne w.so o.id o0.id _ hne0]
            exact hw
          · rw [h]
            exact hw
        exact ih (CD.m2mStep x w o0) hNr.2 hm hw2

/-- C4: for a persisted parent record `x`, `delete(x)` completes and
afterwards: every record whose cascade ForeignKey referenced `x` has
itself been deleted, and — recursively — every record whose cascade
ForeignKey referenced such a deleted child is deleted as well; `x`'s
identifier appears in no record's ManyToMany member list, while the
ManyToMany-owning records themselves remain persisted; and `x`'s own
store entry is removed.  The hypotheses say the stores are well formed
(keys are the snapshots' own identifiers, keys are duplicate-free and
non-falsy where dereferenced, and every owner's member list resolves),
which is the state produced by the engine's own `save`. -/
theorem cascade_delete_spec (w : CD.World) (x : CD.PRec)
    (hxne : x.id ≠ "")
    (hx : w.sp.lookup x.id = some ⟨x.id⟩)
    (hspId : ∀ e ∈ w.sp, e.2.id = e.1)
    (hscId : ∀ e ∈ w.sc, e.2.id = e.1)
    (hsgId : ∀ e ∈ w.sg, e.2.id = e.1)
    (hsoId : ∀ e ∈ w.so, e.2.id = e.1)
    (hscN : (w.sc.map Prod.fst).Nodup)
    (hsgN : (w.sg.map Prod.fst).Nodup)
    (hsoN : (w.so.map Prod.fst).Nodup)
    (hscNe : ∀ e ∈ w.sc, e.1 ≠ "")
    (hom : ∀ e ∈ w.so, ∀ i ∈ e.2.members, (w.sp.lookup i).isSome = true) :
    ∃ w2 : CD.World, CD.deleteP w x = Except.ok w2
      ∧ (∀ e ∈ w.sc, e.2.p = some x.id → w2.sc.lookup e.1 = none)
      ∧ (∀ eg ∈ w.sg, ∀ ec ∈ w.sc, ec.2.p = some x.id → eg.2.c = some ec.1 →
          w2.sg.lookup eg.1 = none)
      ∧ (∀ e ∈ w.so, ∃ ms2, w2.so.lookup e.1 = some ⟨e.1, ms2⟩ ∧ x.id ∉ ms2)
      ∧ w2.sp.lookup x.id = none := by
  have hcid : ∀ c ∈ CD.whereCp w.sp w.sc x,
      ∃ e ∈ w.sc, c = CD.from_dictC w.sp e.2 := by
    intro c hc
    have hc2 := (List.mem_filter.mp hc).1
    rcases List.mem_map.mp hc2 with ⟨e, he, heq⟩
    exact ⟨e, he, heq.symm⟩
  have hne : ∀ c ∈ CD.whereCp w.sp w.sc x, c.id ≠ "" := by
    intro c hc
    obtain ⟨e, he, heq⟩ := hcid c hc
    have : c.id = e.1 := by
      rw [heq]
      show e.2.id = e.1
      exact hscId e he
    rw [this]
    exact hscNe e he
  have hlk : ∀ c ∈ CD.whereCp w.sp w.sc x,
      ∃ csnap, w.sc.lookup c.id = some csnap ∧ csnap.id = c.id := by
    intro c hc
    obtain ⟨e, he, heq⟩ := hcid c hc
    have hcide : c.id = e.2.id := by rw [heq]; rfl
    have hkey : e.2.id = e.1 := hscId e he
    refine ⟨e.2, ?_, by rw [hcide]⟩
    rw [hcide, hkey]
    have : (e.1, e.2) = e := rfl
    rw [show w.sc.lookup e.1 = w.sc.lookup (e.1, e.2).1 from rfl]
    exact mem_lookup_nodup w.sc e.1 e.2 hscN (by rw [this]; exact he)
  have hcsN : ((CD.whereCp w.sp w.sc x).map CD.CRec.id).Nodup := by
    have hsub : (CD.whereCp w.sp w.sc x).map CD.CRec.id |>.Sublist
        ((CD.allC w.sp w.sc).map CD.CRec.id) :=
      List.Sublist.map CD.CRec.id (List.filter_sublist _)
    have hmapeq : (CD.allC w.sp w.sc).map CD.CRec.id = w.sc.map Prod.fst := by
      unfold CD.allC
      rw [List.map_map]
      exact List.map_congr_left (fun e he => hscId e he)
    rw [hmapeq] at hsub
    exact List.Nodup.sublist hsub hscN
  obtain ⟨hB1, hB2, hB3, hB4, hB5, hB6, hB7, hB8⟩ :=
    csFold_spec (CD.whereCp w.sp w.sc x) w hne hcsN hlk hsgId hsgN
  have hallO : CD.allO w.sp w.so = Except.ok (w.so.map (fun e =>
      (⟨e.2.id, e.2.members.map (fun i => (⟨i⟩ : CD.PRec))⟩ : CD.ORec))) :=
    allO_ok w.sp hspId w.so hom
  have hrun : CD.deleteP w x = Except.ok
      { (w.so.map (fun e =>
          (⟨e.2.id, e.2.members.map (fun i => (⟨i⟩ : CD.PRec))⟩ : CD.ORec))
         ).foldl (CD.m2mStep x)
          ((CD.whereCp w.sp w.sc x).foldl CD.deleteC w) with
        sp := delKV ((w.so.map (fun e =>
            (⟨e.2.id, e.2.members.map (fun i => (⟨i⟩ : CD.PRec))⟩ : CD.ORec))
          ).foldl (CD.m2mStep x)
            ((CD.whereCp w.sp w.sc x).foldl CD.deleteC w)).sp x.id } := by
    unfold CD.deleteP
    show (do
      let os ← CD.allO ((CD.whereCp w.sp w.sc x).foldl CD.deleteC w).sp
        ((CD.whereCp w.sp w.sc x).foldl CD.deleteC w).so
      let w2 : CD.World := os.foldl (CD.m2mStep x)
        ((CD.whereCp w.sp w.sc x).foldl CD.deleteC w)
      pure { sp := delKV w2.sp x.id, sc := w2.sc, sg := w2.sg, so := w2.so }
      : Except Err CD.World) = _
    rw [hB1, hB2, hallO, ebind_ok]
    rfl
  obtain ⟨hF1, hF2, hF3⟩ := m2mFold_frame x
    (w.so.map (fun e =>
      (⟨e.2.id, e.2.members.map (fun i => (⟨i⟩ : CD.PRec))⟩ : CD.ORec)))
    ((CD.whereCp w.sp w.sc x).foldl CD.deleteC w)
  refine ⟨_, hrun, ?_, ?_, ?_, ?_⟩
  · intro e he hep
    show ((w.so.map _).foldl (CD.m2mStep x)
      ((CD.whereCp w.sp w.sc x).foldl CD.deleteC w)).sc.lookup e.1 = none
    rw [hF2]
    have hmem : CD.from_dictC w.sp e.2 ∈ CD.whereCp w.sp w.sc x := by
      unfold CD.whereCp
      refine List.mem_filter.mpr ⟨?_, ?_⟩
      · exact List.mem_map_of_mem (fun e2 => CD.from_dictC w.sp e2.2) he
      · rw [from_dictC_eq w.sp e.2 x.id hep hxne,
          getByIdP_resolves w.sp x.id hspId (by rw [hx]; rfl)]
        show decide ((⟨x.id⟩ : CD.PRec).id = x.id) = true
        simp
    have := hB5 (CD.from_dictC w.sp e.2) hmem
    have hcide : (CD.from_dictC w.sp e.2).id = e.1 := by
      show e.2.id = e.1
      exact hscId e he
    rw [hcide] at this
    exact this
  · intro eg heg ec hec hep hegc
    show ((w.so.map _).foldl (CD.m2mStep x)
      ((CD.whereCp w.sp w.sc x).foldl CD.deleteC w)).sg.lookup eg.1 = none
    rw [hF3]
    have hmem : CD.from_dictC w.sp ec.2 ∈ CD.whereCp w.sp w.sc x := by
      unfold CD.whereCp
      refine List.mem_filter.mpr ⟨?_, ?_⟩
      · exact List.mem_map_of_mem (fun e2 => CD.from_dictC w.sp e2.2) hec
      · rw [from_dictC_eq w.sp ec.2 x.id hep hxne,
          getByIdP_resolves w.sp x.id hspId (by rw [hx]; rfl)]
        show decide ((⟨x.id⟩ : CD.PRec).id = x.id) = true
        simp
    refine hB8 (CD.from_dictC w.sp ec.2) hmem eg heg ?_
    have : (CD.from_dictC w.sp ec.2).id = ec.1 := by
      show ec.2.id = ec.1
      exact hscId ec hec
    rw [this]
    exact hegc
  · intro e he
    have hoid : e.2.id = e.1 := hsoId e he
    have hNos : ((w.so.map (fun e =>
        (⟨e.2.id, e.2.members.map (fun i => (⟨i⟩ : CD.PRec))⟩ : CD.ORec))
      ).map CD.ORec.id).Nodup := by
      rw [List.map_map]
      have h2 : w.so.map (CD.ORec.id ∘ fun e =>
          (⟨e.2.id, e.2.members.map (fun i => (⟨i⟩ : CD.PRec))⟩ : CD.ORec))
        = w.so.map Prod.fst :=
        List.map_congr_left (fun e2 he2 => hsoId e2 he2)
      rw [h2]
      exact hsoN
    have homem : (⟨e.2.id, e.2.members.map (fun i => (⟨i⟩ : CD.PRec))⟩ :
        CD.ORec) ∈ w.so.map (fun e =>
          (⟨e.2.id, e.2.members.map (fun i => (⟨i⟩ : CD.PRec))⟩ : CD.ORec)) :=
      List.mem_map_of_mem _ he
    have hwlookup : (((CD.whereCp w.sp w.sc x).foldl CD.deleteC w)).so.lookup
        (⟨e.2.id, e.2.members.map (fun i => (⟨i⟩ : CD.PRec))⟩ : CD.ORec).id =
        some ⟨(⟨e.2.id, e.2.members.map (fun i => (⟨i⟩ : CD.PRec))⟩ :
          CD.ORec).id,
          (⟨e.2.id, e.2.members.map (fun i => (⟨i⟩ : CD.PRec))⟩ :
            CD.ORec).members.map CD.PRec.id⟩ := by
      rw [hB2]
      show w.so.lookup e.2.id = some ⟨e.2.id,
        (e.2.members.map (fun i => (⟨i⟩ : CD.PRec))).map CD.PRec.id⟩
      have hmm : (e.2.members.map (fun i => (⟨i⟩ : CD.PRec))).map CD.PRec.id
          = e.2.members := by
        rw [List.map_map]
        have h0 : List.map (CD.PRec.id ∘ fun i => (⟨i⟩ : CD.PRec)) e.2.members
            = List.map id e.2.members := List.map_congr_left (fun i _ => rfl)
        rw [h0, List.map_id]
      rw [hmm]
      show w.so.lookup e.2.id = some e.2
      rw [hoid]
      have : (e.1, e.2) = e := rfl
      exact mem_lookup_nodup w.so e.1 e.2 hsoN (by rw [this]; exact he)
    obtain ⟨ms2, hlk2, hnx⟩ := m2mFold_cleans x
      (w.so.map (fun e =>
        (⟨e.2.id, e.2.members.map (fun i => (⟨i⟩ : CD.PRec))⟩ : CD.ORec)))
      ((CD.whereCp w.sp w.sc x).foldl CD.deleteC w) hNos _ homem hwlookup
    refine ⟨ms2, ?_, hnx⟩
    show ((w.so.map _).foldl (CD.m2mStep x)
      ((CD.whereCp w.sp w.sc x).foldl CD.deleteC w)).so.lookup e.1
        = some ⟨e.1, ms2⟩
    rw [← hoid]
    exact hlk2
  · show (delKV ((w.so.map _).foldl (CD.m2mStep x)
      ((CD.whereCp w.sp w.sc x).foldl CD.deleteC w)).sp x.id).lookup x.id
        = none
    exact delKV_lookup_self _ x.id

/-- C4, witness: deleting parent `"p1"` in the concrete world
`cdWorld` removes child `"c1"`, recursively removes grandchild `"g1"`,
strips `"p1"` from owner `"o1"`'s member list while keeping the owner,
and removes `"p1"`'s own entry; child `"c2"` of the other parent is
untouched. -/
theorem cascade_delete_spec_witness :
    CD.deleteP cdWorld ⟨"p1"⟩ = Except.ok
      ⟨[("p2", ⟨"p2"⟩)], [("c2", ⟨"c2", some "p2"⟩)], [],
        [("o1", ⟨"o1", ["p2"]⟩)]⟩
    ∧ (⟨[("p2", ⟨"p2"⟩)], [("c2", ⟨"c2", some "p2"⟩)], [],
        [("o1", ⟨"o1", ["p2"]⟩)]⟩ : CD.World).sc.lookup "c1" = none
    ∧ (⟨[("p2", ⟨"p2"⟩)], [("c2", ⟨"c2", some "p2"⟩)], [],
        [("o1", ⟨"o1", ["p2"]⟩)]⟩ : CD.World).sg.lookup "g1" = none
    ∧ (⟨[("p2", ⟨"p2"⟩)], [("c2", ⟨"c2", some "p2"⟩)], [],
        [("o1", ⟨"o1", ["p2"]⟩)]⟩ : CD.World).so.lookup "o1"
        = some ⟨"o1", ["p2"]⟩
    ∧ ("p1" : String) ∉ (["p2"] : List String)
    ∧ (⟨[("p2", ⟨"p2"⟩)], [("c2", ⟨"c2", some "p2"⟩)], [],
        [("o1", ⟨"o1", ["p2"]⟩)]⟩ : CD.World).sp.lookup "p1" = none := by
  obtain ⟨w2, hrun, ha, hb, hc, hd⟩ := cascade_delete_spec cdWorld ⟨"p1"⟩
    (by decide) (by decide) (by decide) (by decide) (by decide) (by decide)
    (by decide) (by decide) (by decide) (by decide) (by decide)
  have heq : w2 = ⟨[("p2", ⟨"p2"⟩)], [("c2", ⟨"c2", some "p2"⟩)], [],
      [("o1", ⟨"o1", ["p2"]⟩)]⟩ := by
    have h2 : CD.deleteP cdWorld ⟨"p1"⟩ = Except.ok
        ⟨[("p2", ⟨"p2"⟩)], [("c2", ⟨"c2", some "p2"⟩)], [],
          [("o1", ⟨"o1", ["p2"]⟩)]⟩ := rfl
    rw [hrun] at h2
    exact Except.ok.inj h2
  refine ⟨heq ▸ hrun, ?_, ?_, ?_, ?_, ?_⟩
  · have h3 := ha ("c1", ⟨"c1", some "p1"⟩) (by decide) rfl
    rwa [heq] at h3
  · have h3 := hb ("g1", ⟨"g1", some "c1"⟩) (by decide)
      ("c1", ⟨"c1", some "p1"⟩) (by decide) rfl rfl
    rwa [heq] at h3
  · rfl
  · obtain ⟨ms2, hlk2, hnx⟩ := hc ("o1", ⟨"o1", ["p1", "p2"]⟩) (by decide)
    rw [heq] at hlk2
    have hms2 : ms2 = ["p2"] := by
      have h4 : some (⟨"o1", ["p2"]⟩ : CD.OSnap) = some ⟨"o1", ms2⟩ := by
        rw [← hlk2]
        rfl
      have h5 := Option.some.inj h4
      exact (congrArg CD.OSnap.members h5).symm
    rw [← hms2]
    exact hnx
  · have h3 := hd
    rwa [heq] at h3

end Shelflet
